import Mathlib

/-!
Verification development for the promise-cacher library.

This file gives a shallow embedding of the core of the library and proves
properties of it.  The embedding follows the TypeScript sources:

* `src/src/promise-cacher.ts` — the `PromiseCacher` facade (`get`, `set`,
  `consume`, `delete`, `flush`, `flushMemory`, memory accounting);
* `src/unnamed/part_003` — the `CacheTask` class (constructor, `run`,
  `status`, `isExpired`, `order`, `output`, `score`);
* `src/unnamed/part_011` — the `PromiseHolder` one-shot slot (`liberatedAt`);
* `src/unnamed/part_010` — `limitTimeout`;
* `src/unnamed/part_012` — `cacheKeyTransformDefaultFn` / `objectToSortedString`;
* `src/src/util/sizeof.ts` — the byte-size estimator;
* `src/src/util/calc-cache-score.ts` — the default eviction score.

Modelling conventions.  JavaScript wall-clock instants are `Nat`; fields that
the code leaves `undefined` until first written (`resolvedAt`, the holder's
`liberatedAt`) are `Option Nat` — `Date.now()` is always positive in a real
run, so JS truthiness tests on those fields correspond to `isSome`.  The
single-threaded JS event loop is modelled by a small-step relation whose
steps are the synchronous blocks of the code (a public call, a promise
settlement, a sweeper tick); each step is atomic, exactly as synchronous
JS code is.  Floating point numbers that carry arithmetic content (scores,
the byte estimator) are modelled by `ℚ`.
-/

namespace PromiseCacherModel

/-- Cache expiration strategies (`src/src/define.ts`, `ExpirationStrategyType`). -/
inductive ExpirationStrategyType where
  | EXPIRE
  | IDLE
  deriving DecidableEq

/-- Error-task policies (`src/src/define.ts`); the code only ever tests
whether the policy equals `CACHE`. -/
inductive ErrorTaskPolicyType where
  | RELEASE
  | CACHE
  | IGNORE
  deriving DecidableEq

/-- Task status values (`src/src/define.ts`, `CacheTaskStatusType`).
`AWAIT` is the status the specification calls RUNNING. -/
inductive CacheTaskStatusType where
  | QUEUED
  | AWAIT
  | ACTIVE
  | FAILED
  | EXPIRED
  deriving DecidableEq

/-- The computed configuration of a `PromiseCacher` (the values produced by
`computeOptimizedConfig` plus the `concurrency` raw config value, whose getter
normalisation is `CacherConfig.concurrencyCap` below). -/
structure CacherConfig where
  ttlMs : Nat
  expirationStrategy : ExpirationStrategyType
  errorTaskPolicy : ErrorTaskPolicyType
  /-- raw `fetchingPolicy.concurrency` value (may be negative). -/
  concurrency : Int
  maxMemoryBytes : Nat
  minMemoryBytes : Nat
  deriving DecidableEq

/-- The `concurrency` getter of `PromiseCacher` (promise-cacher.ts lines
194-199): a negative configured concurrency is treated as 0 (unlimited). -/
def CacherConfig.concurrencyCap (cfg : CacherConfig) : Nat :=
  if cfg.concurrency < 0 then 0 else cfg.concurrency.toNat

/-- A minimal universe of cached values for the operational model; `vnull`
models the JS value `null`. -/
inductive JsVal where
  | vnull
  | vnum (n : Nat)
  deriving DecidableEq

/-- Resident-byte estimate that `sizeof` gives the values of `JsVal`
(`sizeof(null) = 0`, numbers count 8 bytes). -/
def jsValBytes : JsVal → Nat
  | .vnull => 0
  | .vnum _ => 8

/-- The settled outcome of a promise: fulfilled with a value or rejected
with an error (the error's message). -/
inductive Outcome where
  | ok (v : JsVal)
  | error (e : String)
  deriving DecidableEq

/-- One cache task (`src/unnamed/part_003`).  `liberatedAt` is the
`PromiseHolder` liberation timestamp — the task's `fetchStartedAt` getter.
`fetchStarts` is a ghost counter of how many times `run` invoked the user
fetch function, and `slotOutcome` is the settled outcome of the promise
chain feeding the slot (shared by every awaiter of `output()`). -/
structure CacheTask where
  taskId : Nat
  usedBytes : Nat
  usedCount : Nat
  createdAt : Nat
  lastAccessedAt : Nat
  resolvedAt : Option Nat
  liberatedAt : Option Nat
  taskError : Option String
  fetchStarts : Nat
  slotOutcome : Option Outcome
  deriving DecidableEq

/-- `CacheTask.isExpired` (part_003 lines 138-151).  In JS, when `resolvedAt`
is `undefined` the comparison `now - resolvedAt > ttlMs` is a `NaN`
comparison and yields `false`; the `Option` match reproduces that. -/
def CacheTask.isExpired (cfg : CacherConfig) (t : CacheTask) (now : Nat) : Bool :=
  (cfg.expirationStrategy == .IDLE && decide (cfg.ttlMs < now - t.lastAccessedAt)) ||
  (cfg.expirationStrategy == .EXPIRE &&
    (match t.resolvedAt with
     | some r => decide (cfg.ttlMs < now - r)
     | none => false))

/-- `CacheTask.status` (part_003 lines 159-176). -/
def CacheTask.status (cfg : CacherConfig) (t : CacheTask) (now : Nat) : CacheTaskStatusType :=
  if t.taskError.isSome && cfg.errorTaskPolicy != .CACHE then .FAILED
  else if t.isExpired cfg now then .EXPIRED
  else if t.liberatedAt.isNone then .QUEUED
  else if t.resolvedAt.isSome then .ACTIVE
  else .AWAIT

/-- `CacheTask.order` (part_003 lines 39-41): `createdAt - usedCount * 1000`. -/
def CacheTask.order (t : CacheTask) : Int :=
  (t.createdAt : Int) - t.usedCount * 1000

/-- `CacheTask.run` (part_003 lines 86-94): a no-op once the holder is
liberated; otherwise it invokes the user fetch function (counted by the
ghost field `fetchStarts`) and resolves the holder with the raced promise,
which liberates the holder immediately. -/
def CacheTask.run (t : CacheTask) (now : Nat) : CacheTask :=
  if t.liberatedAt.isSome then t
  else { t with liberatedAt := some now, fetchStarts := t.fetchStarts + 1 }

/-- The value argument given to `set` / the `CacheTask` constructor.
`undefinedArg` is an omitted value, `promiseArg` a still-pending promise. -/
inductive SetArg where
  | undefinedArg
  | nullArg
  | errorArg (e : String)
  | valueArg (v : JsVal)
  | promiseArg
  deriving DecidableEq

/-- The JS loose test `_asyncOutput != undefined` of the `CacheTask`
constructor (part_003 line 81): `null == undefined` holds loosely, so both
`undefined` and `null` fail the test. -/
def looseNeqUndefined : SetArg → Bool
  | .undefinedArg => false
  | .nullArg => false
  | _ => true

/-- The `instanceof Error` test of the `CacheTask` constructor. -/
def SetArg.isErrorInstance : SetArg → Bool
  | .errorArg _ => true
  | _ => false

/-- Whether a `set` argument is absent in the loose-equality sense. -/
def SetArg.isAbsent (a : SetArg) : Bool := !looseNeqUndefined a

/-- The `CacheTask` constructor (part_003 lines 73-84): an `Error` value
rejects the holder, a value that is not loosely `undefined` resolves it
(liberating the holder at once), and an absent value leaves the holder
untouched so the task starts `QUEUED`. -/
def mkCacheTask (id now : Nat) (arg : SetArg) : CacheTask :=
  let base : CacheTask :=
    { taskId := id, usedBytes := 0, usedCount := 0, createdAt := now,
      lastAccessedAt := now, resolvedAt := none, liberatedAt := none,
      taskError := none, fetchStarts := 0, slotOutcome := none }
  if arg.isErrorInstance then
    match arg with
    | .errorArg e => { base with liberatedAt := some now, slotOutcome := some (.error e) }
    | _ => base
  else if looseNeqUndefined arg then
    match arg with
    | .valueArg v => { base with liberatedAt := some now, slotOutcome := some (.ok v) }
    | _ => { base with liberatedAt := some now }
  else base

/-- The mutable state of a `PromiseCacher`: the clock, the task map (an
association list in insertion order, as a JS `Map` iterates), the computed
configuration, a ghost counter supplying fresh task identities, and the two
metric counters the claims mention.  `timeoutCount` is the
`performanceMetrics.timeoutCount` field of promise-cacher.ts. -/
structure CacherState where
  now : Nat
  tasks : List (String × CacheTask)
  cfg : CacherConfig
  nextId : Nat
  overMemoryLimitCount : Nat
  timeoutCount : Nat
  deriving DecidableEq

/-- Lookup of the first entry stored under a key in a task list. -/
def findInTasks (tasks : List (String × CacheTask)) (k : String) : Option CacheTask :=
  (tasks.find? (fun kt => kt.1 == k)).map (fun kt => kt.2)

/-- `taskMap.get` — the task stored under a fingerprint. -/
def CacherState.findTask (s : CacherState) (k : String) : Option CacheTask :=
  findInTasks s.tasks k

/-- `PromiseCacher.deleteByCacheKey` (promise-cacher.ts lines 407-413),
restricted to the task map (the released-bytes metric is not modelled). -/
def CacherState.deleteByCacheKey (s : CacherState) (k : String) : CacherState :=
  { s with tasks := s.tasks.filter (fun kt => kt.1 != k) }

/-- The queued tasks, sorted by `CacheTask.order` ascending, exactly as
`consume` computes them (promise-cacher.ts lines 377-379).  JS
`Array.prototype.sort` is a stable sort; `List.insertionSort` with `≤` on
the sort key is the stable sort with the same output. -/
def CacherState.queuedTasks (s : CacherState) : List (String × CacheTask) :=
  (s.tasks.filter (fun kt => kt.2.status s.cfg s.now == .QUEUED)).insertionSort
    (fun a b => a.2.order ≤ b.2.order)

/-- The tasks whose status is `AWAIT` (promise-cacher.ts lines 381-383). -/
def CacherState.awaitedTasks (s : CacherState) : List (String × CacheTask) :=
  s.tasks.filter (fun kt => kt.2.status s.cfg s.now == .AWAIT)

/-- Run every task whose key is listed (the `task.run()` calls of
`consume`); keys are unique in the map, so this updates each selected
task once. -/
def runKeys (tasks : List (String × CacheTask)) (ks : List String) (now : Nat) :
    List (String × CacheTask) :=
  tasks.map (fun kt => if kt.1 ∈ ks then (kt.1, kt.2.run now) else kt)

/-- The `availableSlots` value computed by `consume`. -/
def CacherState.availableSlots (s : CacherState) : Int :=
  (s.cfg.concurrencyCap : Int) - (s.awaitedTasks.length : Int)

/-- `PromiseCacher.consume` (promise-cacher.ts lines 376-394): return if no
task is queued; with a zero (= unlimited) cap run every queued task; else
run the first `availableSlots` tasks of the order-sorted queue, in order. -/
def CacherState.consume (s : CacherState) : CacherState :=
  if s.queuedTasks.isEmpty then s
  else if s.cfg.concurrencyCap = 0 then
    { s with tasks := runKeys s.tasks (s.queuedTasks.map (fun kt => kt.1)) s.now }
  else if s.availableSlots ≤ 0 then s
  else
    { s with
      tasks := runKeys s.tasks
        ((s.queuedTasks.take s.availableSlots.toNat).map (fun kt => kt.1)) s.now }

/-- `PromiseCacher.set` (promise-cacher.ts lines 368-374): delete any prior
entry, install a fresh task, then `consume` (the `setTimer` call has no
modelled effect). -/
def CacherState.set (s : CacherState) (k : String) (arg : SetArg) : CacherState :=
  let s1 := s.deleteByCacheKey k
  let s2 : CacherState :=
    { s1 with
      tasks := s1.tasks ++ [(k, mkCacheTask s.nextId s.now arg)],
      nextId := s.nextId + 1 }
  s2.consume

/-- The state effect of `CacheTask.output()` (part_003 lines 185-196):
increment the use counter and refresh the last-access time of the task the
caller awaits. -/
def CacherState.touch (s : CacherState) (k : String) : CacherState :=
  { s with
    tasks := s.tasks.map (fun kt =>
      if kt.1 == k then
        (kt.1, { kt.2 with usedCount := kt.2.usedCount + 1, lastAccessedAt := s.now })
      else kt) }

/-- The synchronous decision phase of `PromiseCacher.get` (promise-cacher.ts
lines 282-307): create a replacement task on a forced update, a missing
entry, or an `EXPIRED` entry; otherwise leave the map untouched. -/
def CacherState.getSync (s : CacherState) (k : String) (forceUpdate : Bool) : CacherState :=
  if forceUpdate || (s.findTask k).isNone then s.set k .undefinedArg
  else
    match s.findTask k with
    | some t => if t.status s.cfg s.now == .EXPIRED then s.set k .undefinedArg else s
    | none => s

/-- The full state effect of one `get` call up to its `await`: the decision
phase followed by the `output()` bookkeeping on the stored task
(promise-cacher.ts line 315). -/
def CacherState.get (s : CacherState) (k : String) (forceUpdate : Bool) : CacherState :=
  (s.getSync k forceUpdate).touch k

/-- Settlement of one task record with outcome `o`: the handlers installed
by `setPromiseHandle` (part_003 lines 118-136) record the byte estimate on
success, capture the error on rejection, and always set `resolvedAt`. -/
def settleTask (o : Outcome) (now : Nat) (t : CacheTask) : CacheTask :=
  { t with
    slotOutcome := some o,
    usedBytes := match o with | .ok v => jsValBytes v | .error _ => t.usedBytes,
    taskError := match o with | .ok _ => t.taskError | .error e => some e,
    resolvedAt := some now }

/-- Settlement of the promise chain of the task stored under `k`, followed
by the `consume` call of `done()`.  Deferred release of a failed task (the
`setTimeout` branch) is a later `deleteOp` step. -/
def CacherState.settleWith (s : CacherState) (k : String) (o : Outcome) : CacherState :=
  CacherState.consume
    { s with
      tasks := s.tasks.map (fun kt =>
        if kt.1 == k then (kt.1, settleTask o s.now kt.2) else kt) }

/-- `PromiseCacher.cleanupExpiredTasks` (promise-cacher.ts lines 815-821):
delete every task whose status is `EXPIRED`. -/
def CacherState.cleanupExpiredTasks (s : CacherState) : CacherState :=
  { s with tasks := s.tasks.filter (fun kt => kt.2.status s.cfg s.now != .EXPIRED) }

/-- `PromiseCacher.usedMemoryBytes` (promise-cacher.ts lines 246-248): the
sum of `usedBytes` over all stored tasks. -/
def CacherState.usedMemoryBytes (s : CacherState) : Nat :=
  (s.tasks.map (fun kt => kt.2.usedBytes)).sum

/-- `PromiseCacher.shouldCleanupMemory` (promise-cacher.ts lines 826-831). -/
def CacherState.shouldCleanupMemory (s : CacherState) : Bool :=
  decide (s.cfg.maxMemoryBytes < s.usedMemoryBytes) ||
  (s.cfg.maxMemoryBytes == 0 && decide (0 < s.usedMemoryBytes))

/-- `PromiseCacher.getActiveTasks` (promise-cacher.ts lines 861-867): the
eviction candidates, of status `ACTIVE` or `FAILED`. -/
def CacherState.getActiveTasks (s : CacherState) : List (String × CacheTask) :=
  s.tasks.filter (fun kt =>
    kt.2.status s.cfg s.now == .ACTIVE || kt.2.status s.cfg s.now == .FAILED)

/-- The eviction loop of `flushMemory` (promise-cacher.ts lines 847-855):
walk the score-sorted list, delete, accumulate released bytes, and stop as
soon as the accumulated bytes reach the target. -/
def evictKeys : List (String × CacheTask) → Int → List String
  | [], _ => []
  | kt :: rest, target =>
    if target ≤ (kt.2.usedBytes : Int) then [kt.1]
    else kt.1 :: evictKeys rest (target - kt.2.usedBytes)

/-- The eviction candidates of `flushMemory`, sorted by score ascending,
exactly as `flushMemory` computes them (promise-cacher.ts lines 842-844).
JS `Array.prototype.sort` is stable; `List.insertionSort` with `\u2264` on the
score is the stable sort with the same output. -/
def CacherState.scoredCandidates (s : CacherState) (scoreFn : String × CacheTask → ℚ) :
    List (String × CacheTask) :=
  s.getActiveTasks.insertionSort (fun a b => scoreFn a ≤ scoreFn b)

/-- `PromiseCacher.flushMemory` (promise-cacher.ts lines 840-856).
`scoreFn` is the configured `task.score()` function. -/
def CacherState.flushMemory (s : CacherState) (scoreFn : String × CacheTask → ℚ)
    (memoryToBeReleasedBytes : Int) : CacherState :=
  { s with
    tasks := s.tasks.filter (fun kt =>
      decide (kt.1 ∉ evictKeys (s.scoredCandidates scoreFn) memoryToBeReleasedBytes)) }

/-- The byte target `usedMemoryBytes - minMemoryBytes` that `flush` hands
to `flushMemory` when the memory pass runs. -/
def CacherState.flushTarget (s : CacherState) : Int :=
  (s.usedMemoryBytes : Int) - (s.cfg.minMemoryBytes : Int)

/-- `PromiseCacher.flush` (promise-cacher.ts lines 801-810): expiration pass,
then, if over the memory limit, bump the eviction-trigger counter once and
run the memory pass with target `usedMemoryBytes - minMemoryBytes`. -/
def CacherState.flush (s : CacherState) (scoreFn : String × CacheTask → ℚ) : CacherState :=
  if s.cleanupExpiredTasks.shouldCleanupMemory then
    CacherState.flushMemory
      { s.cleanupExpiredTasks with
        overMemoryLimitCount := s.cleanupExpiredTasks.overMemoryLimitCount + 1 }
      scoreFn s.cleanupExpiredTasks.flushTarget
  else s.cleanupExpiredTasks

/-- `PromiseCacher.clear` (promise-cacher.ts lines 430-439): drop all tasks
and reset the metrics. -/
def CacherState.clear (s : CacherState) : CacherState :=
  { s with tasks := [], overMemoryLimitCount := 0, timeoutCount := 0 }

/-- `health.timeouts` as reported by `calculateHealthMetrics`
(promise-cacher.ts lines 696-734): it reports `performanceMetrics.timeoutCount`. -/
def CacherState.healthTimeouts (s : CacherState) : Nat := s.timeoutCount

/-- The number of tasks in status `AWAIT` (the spec's RUNNING count). -/
def CacherState.countAwait (s : CacherState) : Nat :=
  s.tasks.countP (fun kt => kt.2.status s.cfg s.now == .AWAIT)

/-- `currentUsageBytes` of `statistics().memory` (`calculateMemoryMetrics`,
promise-cacher.ts lines 647-665): it reports `this.usedMemoryBytes`. -/
def CacherState.memoryCurrentUsageBytes (s : CacherState) : Nat :=
  s.usedMemoryBytes

/-- A fresh cacher (constructor of `PromiseCacher`), at clock value `t0`. -/
def initState (cfg : CacherConfig) (t0 : Nat) : CacherState :=
  { now := t0, tasks := [], cfg := cfg, nextId := 0,
    overMemoryLimitCount := 0, timeoutCount := 0 }

/-- One atomic synchronous block of the library.  When `allowPrestarted` is
`false`, `set` may only be called without a value, so every task starts
`QUEUED` and enters the running status only through scheduler admission;
`true` gives the full public interface. -/
inductive StepG (allowPrestarted : Bool) : CacherState → CacherState → Prop where
  | tick (s : CacherState) (dt : Nat) : StepG allowPrestarted s { s with now := s.now + dt }
  | getOp (s : CacherState) (k : String) (forceUpdate : Bool) :
      StepG allowPrestarted s (s.get k forceUpdate)
  | setOp (s : CacherState) (k : String) (arg : SetArg)
      (harg : arg.isAbsent = true ∨ allowPrestarted = true) :
      StepG allowPrestarted s (s.set k arg)
  | deleteOp (s : CacherState) (k : String) : StepG allowPrestarted s (s.deleteByCacheKey k)
  | consumeOp (s : CacherState) : StepG allowPrestarted s s.consume
  | settleOp (s : CacherState) (k : String) (t : CacheTask) (o : Outcome)
      (hfind : s.findTask k = some t) (hlib : t.liberatedAt.isSome = true)
      (hres : t.resolvedAt = none)
      (hout : t.slotOutcome = none ∨ t.slotOutcome = some o) :
      StepG allowPrestarted s (s.settleWith k o)
  | flushOp (s : CacherState) (scoreFn : String × CacheTask → ℚ) :
      StepG allowPrestarted s (s.flush scoreFn)
  | clearOp (s : CacherState) : StepG allowPrestarted s s.clear

/-- States reachable from a fresh cacher. -/
inductive ReachG (allowPrestarted : Bool) (cfg : CacherConfig) (t0 : Nat) :
    CacherState → Prop where
  | init : ReachG allowPrestarted cfg t0 (initState cfg t0)
  | step {s s2 : CacherState} :
      ReachG allowPrestarted cfg t0 s → StepG allowPrestarted s s2 →
      ReachG allowPrestarted cfg t0 s2

/-- Well-formedness of one stored task: its ghost identity is fresh-bounded,
the user fetch function has been invoked at most once, never before the
holder was liberated, and an error or resolution timestamp implies the
holder was liberated. -/
def TaskWF (nextId : Nat) (kt : String × CacheTask) : Prop :=
  kt.2.taskId < nextId ∧ kt.2.fetchStarts ≤ 1 ∧
  (kt.2.liberatedAt = none → kt.2.fetchStarts = 0) ∧
  (kt.2.taskError.isSome = true → kt.2.liberatedAt.isSome = true) ∧
  (kt.2.resolvedAt.isSome = true → kt.2.liberatedAt.isSome = true)

/-- Well-formedness of a task map: duplicate-free keys and per-task
well-formedness. -/
def TasksWF (nextId : Nat) (tasks : List (String × CacheTask)) : Prop :=
  (tasks.map (fun kt => kt.1)).Nodup ∧ ∀ kt ∈ tasks, TaskWF nextId kt

/-- Well-formedness of a cacher state. -/
def GoodState (s : CacherState) : Prop := TasksWF s.nextId s.tasks

/-! The default eviction score (claim C8). -/

/-- `calcCacheScoreDefaultFn` (src/src/util/calc-cache-score.ts lines 38-51)
over `ℚ`; the first argument is the cacher's configured TTL (its
`cacheMillisecond` / `ttlMs` value). -/
def calcCacheScoreDefaultFn (ttlMs usedCount usedBytes createdAt lastAccessedAt now : ℚ) : ℚ :=
  let ub := max usedBytes 1
  let timeScore := (now * 2 - createdAt - lastAccessedAt) / 2 / ttlMs
  let timeScore2 := if timeScore = 0 then 1 else timeScore
  usedCount * 1024 / ub / timeScore2

/-- `CacheTask.score` (part_003 lines 204-208): dispatch to the configured
score function if any, else to the default one with the task's counters and
timestamps. -/
def CacheTask.score (calcCacheScoreFn : Option (CacheTask → Nat → ℚ)) (ttlMs : Nat)
    (t : CacheTask) (now : Nat) : ℚ :=
  match calcCacheScoreFn with
  | some fn => fn t now
  | none =>
      calcCacheScoreDefaultFn ttlMs t.usedCount t.usedBytes t.createdAt t.lastAccessedAt now

/-- The default score formula in the specification's words:
`(usedCount × 1024) / max(usedBytes, 1) / timeScore` where
`timeScore = ((2·now − createdAt − lastAccessedAt) / 2) / ttlMs`, a
`timeScore` of exactly 0 being replaced by 1. -/
def cacheScoreSpecFormula (ttlMs usedCount usedBytes createdAt lastAccessedAt now : ℚ) : ℚ :=
  let timeScore := ((2 * now - createdAt - lastAccessedAt) / 2) / ttlMs
  let ts := if timeScore = 0 then 1 else timeScore
  usedCount * 1024 / max usedBytes 1 / ts

/-- The timeout error the `run` method of `CacheTask` constructs. -/
def timeoutErrorMessage : String := "Error CacheTask timeout: key#"

/-- `limitTimeout` (src/unnamed/part_010): with no timeout or a non-positive
one, the task's own outcome; otherwise the race of the task against the
timer — `timerFiresFirst` tells which side of `Promise.race` settles first,
and a timer win is rejected with the supplied timeout error. -/
def limitTimeout (timeoutMillisecond : Option Nat) (timerFiresFirst : Bool)
    (timeoutError : String) (task : Outcome) : Outcome :=
  match timeoutMillisecond with
  | none => task
  | some m =>
      if m = 0 then task
      else if timerFiresFirst then .error timeoutError
      else task

/-- The computed `timeoutMs` (promise-cacher.ts lines 144-147): a configured
numeric timeout is clamped to at most `ttlMs`. -/
def computeTimeoutMs (configTimeoutMs : Option Nat) (ttlMs : Nat) : Option Nat :=
  match configTimeoutMs with
  | some m => some (min ttlMs m)
  | none => none

/-- A cacher configuration with an unlimited concurrency cap, defaults
otherwise. -/
def c10cfg : CacherConfig :=
  { ttlMs := 300000, expirationStrategy := .EXPIRE, errorTaskPolicy := .IGNORE,
    concurrency := 0, maxMemoryBytes := 10485760, minMemoryBytes := 5242880 }

/-- The configuration of the C5 timeout scenario (`timeoutMs = 100` with the
default TTL). -/
def c5cfg : CacherConfig :=
  { ttlMs := 300000, expirationStrategy := .EXPIRE, errorTaskPolicy := .IGNORE,
    concurrency := 0, maxMemoryBytes := 10485760, minMemoryBytes := 5242880 }

/-- The sum of resident-byte estimates over the tasks whose status is
`ACTIVE`. -/
def CacherState.activeUsedBytes (s : CacherState) : Nat :=
  ((s.tasks.filter (fun kt => kt.2.status s.cfg s.now == .ACTIVE)).map
    (fun kt => kt.2.usedBytes)).sum

/-- The C6 configuration: 100 ms TTL, EXPIRE strategy. -/
def c6cfg : CacherConfig :=
  { ttlMs := 100, expirationStrategy := .EXPIRE, errorTaskPolicy := .IGNORE,
    concurrency := 0, maxMemoryBytes := 1000, minMemoryBytes := 500 }

/-- A reachable cacher state holding one task that resolved with an 8-byte
value and has since expired: `get("k")` at t=0, resolution at t=0, clock
now at t=500 > ttl. -/
def c6state : CacherState :=
  { ((initState c6cfg 0).set "k" .undefinedArg).settleWith "k" (.ok (.vnum 7)) with
    now := (((initState c6cfg 0).set "k" .undefinedArg).settleWith "k"
      (.ok (.vnum 7))).now + 500 }

/-- A configuration whose memory window (max 4 bytes, min 2 bytes) is
exceeded by a single resolved 8-byte value. -/
def c2cfg : CacherConfig :=
  { ttlMs := 100, expirationStrategy := .EXPIRE, errorTaskPolicy := .IGNORE,
    concurrency := 0, maxMemoryBytes := 4, minMemoryBytes := 2 }

/-- A reachable state holding one `ACTIVE` task with an 8-byte resolved
value, putting the cacher over its 4-byte memory limit. -/
def c2state : CacherState :=
  ((initState c2cfg 0).set "k" .undefinedArg).settleWith "k" (.ok (.vnum 7))

/-- A concrete scoring function for exercising the memory pass. -/
def c2score : String × CacheTask → ℚ := fun _ => 0

/-- The number of tasks the eviction loop of `flushMemory` deletes before
stopping. -/
def evictLen : List (String × CacheTask) → Int → Nat
  | [], _ => 0
  | kt :: rest, target =>
    if target ≤ (kt.2.usedBytes : Int) then 1
    else evictLen rest (target - kt.2.usedBytes) + 1

/-- The score-sorted candidate list of the concrete over-limit state. -/
def c2scored : List (String × CacheTask) :=
  c2state.cleanupExpiredTasks.scoredCandidates c2score

/-- The release target of the concrete memory pass. -/
def c2target : Int := c2state.cleanupExpiredTasks.flushTarget

/-- The number of evictions of the concrete memory pass. -/
def c2n : Nat := evictLen c2scored c2target

/-- A configuration with a single fetch slot and a long TTL. -/
def c4cfg : CacherConfig :=
  { ttlMs := 100000, expirationStrategy := .EXPIRE, errorTaskPolicy := .IGNORE,
    concurrency := 1, maxMemoryBytes := 1000, minMemoryBytes := 500 }

/-- After `get("h")` and `get("a")` at t=0: `h` holds the single slot
(`AWAIT`) and `a` (created at 0, used once) waits in the queue. -/
def c4mid : CacherState := ((initState c4cfg 0).get "h" false).get "a" false

/-- 500 ms later `get("b")` is issued twice: `b` (created at 500, used
twice) joins the queue behind `a`. -/
def c4pre : CacherState :=
  (({ c4mid with now := c4mid.now + 500 }).get "b" false).get "b" false

/-- Settling `h` frees the slot and re-runs the scheduler, which admits the
queued task of smallest `order`. -/
def c4state : CacherState := c4pre.settleWith "h" (.ok (.vnum 1))

/-- Deleting `h` instead frees the slot without running the scheduler,
leaving a state with a non-empty queue and a free slot. -/
def c4wstate : CacherState := c4pre.deleteByCacheKey "h"

/-- A configuration with one fetch slot, for exercising the concurrency
cap. -/
def c3cfg : CacherConfig :=
  { ttlMs := 100000, expirationStrategy := .EXPIRE, errorTaskPolicy := .IGNORE,
    concurrency := 1, maxMemoryBytes := 1000, minMemoryBytes := 500 }

/-- The same configuration with a negative raw concurrency. -/
def c3negcfg : CacherConfig := { c3cfg with concurrency := -1 }

/-- The same configuration with concurrency 0 (unlimited). -/
def c3zerocfg : CacherConfig := { c3cfg with concurrency := 0 }

/-- Two `set(key, pendingPromise)` calls against the one-slot cacher: each
constructor resolves its holder with the still-pending promise at once, so
both tasks are born `AWAIT` without ever passing through the scheduler. -/
def c3state : CacherState :=
  ((initState c3cfg 0).set "p" .promiseArg).set "q" .promiseArg

/-- A cacher with concurrency 0 holding one queued task (before any
scheduler call). -/
def c3qstate : CacherState :=
  { now := 0, tasks := [("q", mkCacheTask 0 0 .undefinedArg)], cfg := c3zerocfg,
    nextId := 1, overMemoryLimitCount := 0, timeoutCount := 0 }

/-- One `get` against the one-slot cacher: its task is admitted at once. -/
def c3gstate : CacherState := (initState c3cfg 0).get "a" false

/-- The task stored under `"a"` in `c3gstate`: admitted (fetch started
once) and not yet settled. -/
def c1task : CacheTask :=
  { taskId := 0, usedBytes := 0, usedCount := 1, createdAt := 0,
    lastAccessedAt := 0, resolvedAt := none, liberatedAt := some 0,
    taskError := none, fetchStarts := 1, slotOutcome := none }

/-- The task stored under `"k"` in `c2state`: settled with the 8-byte
value 7. -/
def c1stask : CacheTask :=
  { taskId := 0, usedBytes := 8, usedCount := 0, createdAt := 0,
    lastAccessedAt := 0, resolvedAt := some 0, liberatedAt := some 0,
    taskError := none, fetchStarts := 1, slotOutcome := some (.ok (.vnum 7)) }

/-- A JavaScript value for the size estimator (src/src/util/sizeof.ts):
strings, booleans, numbers, `undefined` and arrays — the input fragment
claim C9 ranges over.  `used.includes` is JS SameValueZero, which this
embedding renders as structural equality (exact for primitives; for arrays
it identifies structurally equal values, which the theorems below never
rely on). -/
inductive SVal where
  | jstr (s : String)
  | jbool (b : Bool)
  | jnum (n : Int)
  | jundef
  | jarr (elems : List SVal)

mutual
/-- Structural decidable equality for `SVal` (the nested list blocks the
derive handler). -/
def SVal.decEq (a b : SVal) : Decidable (a = b) :=
  match a, b with
  | .jstr x, .jstr y =>
      match String.decEq x y with
      | isTrue h => isTrue (by rw [h])
      | isFalse h => isFalse (fun hc => h (by cases hc; rfl))
  | .jbool x, .jbool y =>
      match Bool.decEq x y with
      | isTrue h => isTrue (by rw [h])
      | isFalse h => isFalse (fun hc => h (by cases hc; rfl))
  | .jnum x, .jnum y =>
      match Int.decEq x y with
      | isTrue h => isTrue (by rw [h])
      | isFalse h => isFalse (fun hc => h (by cases hc; rfl))
  | .jundef, .jundef => isTrue rfl
  | .jarr xs, .jarr ys =>
      match SVal.decEqList xs ys with
      | isTrue h => isTrue (by rw [h])
      | isFalse h => isFalse (fun hc => h (by cases hc; rfl))
  | .jstr _, .jbool _ => isFalse (fun h => SVal.noConfusion h)
  | .jstr _, .jnum _ => isFalse (fun h => SVal.noConfusion h)
  | .jstr _, .jundef => isFalse (fun h => SVal.noConfusion h)
  | .jstr _, .jarr _ => isFalse (fun h => SVal.noConfusion h)
  | .jbool _, .jstr _ => isFalse (fun h => SVal.noConfusion h)
  | .jbool _, .jnum _ => isFalse (fun h => SVal.noConfusion h)
  | .jbool _, .jundef => isFalse (fun h => SVal.noConfusion h)
  | .jbool _, .jarr _ => isFalse (fun h => SVal.noConfusion h)
  | .jnum _, .jstr _ => isFalse (fun h => SVal.noConfusion h)
  | .jnum _, .jbool _ => isFalse (fun h => SVal.noConfusion h)
  | .jnum _, .jundef => isFalse (fun h => SVal.noConfusion h)
  | .jnum _, .jarr _ => isFalse (fun h => SVal.noConfusion h)
  | .jundef, .jstr _ => isFalse (fun h => SVal.noConfusion h)
  | .jundef, .jbool _ => isFalse (fun h => SVal.noConfusion h)
  | .jundef, .jnum _ => isFalse (fun h => SVal.noConfusion h)
  | .jundef, .jarr _ => isFalse (fun h => SVal.noConfusion h)
  | .jarr _, .jstr _ => isFalse (fun h => SVal.noConfusion h)
  | .jarr _, .jbool _ => isFalse (fun h => SVal.noConfusion h)
  | .jarr _, .jnum _ => isFalse (fun h => SVal.noConfusion h)
  | .jarr _, .jundef => isFalse (fun h => SVal.noConfusion h)

/-- Decidable equality for lists of `SVal`. -/
def SVal.decEqList (xs ys : List SVal) : Decidable (xs = ys) :=
  match xs, ys with
  | [], [] => isTrue rfl
  | [], _ :: _ => isFalse (fun h => List.noConfusion h)
  | _ :: _, [] => isFalse (fun h => List.noConfusion h)
  | x :: xs2, y :: ys2 =>
      match SVal.decEq x y, SVal.decEqList xs2 ys2 with
      | isTrue h1, isTrue h2 => isTrue (by rw [h1, h2])
      | isFalse h1, _ => isFalse (fun hc => h1 (by cases hc; rfl))
      | isTrue _, isFalse h2 => isFalse (fun hc => h2 (by cases hc; rfl))
end

instance : DecidableEq SVal := SVal.decEq

/-- `SizeofOptions` (sizeof.ts lines 10-13). -/
structure SizeofOptions where
  maxKeyLimit : Nat
  maxDepth : Nat
  deriving DecidableEq

/-- The defaults `DefaultMaxKeyLimit = 1000`, `DefaultMaxDepth = 10`
(sizeof.ts lines 7-8). -/
def defaultSizeofOptions : SizeofOptions :=
  { maxKeyLimit := 1000, maxDepth := 10 }

mutual
/-- `sizeof` (sizeof.ts lines 72-118): guard on depth, on the visited-list
length and on revisit; push the value; then 2 bytes per string character,
4 per boolean, 8 per number, 0 for `undefined` (the `default` branch), and
for arrays the body of `sizeOfArray` (sizeof.ts lines 45-64, restated as
`jsizeOfArray` below) called at depth `1 + depth`, whose own `nextDepth`
is one more again.  The byte count is a JS float, modelled as `ℚ`; the
mutated `used` array is threaded explicitly. -/
def jsizeof (v : SVal) (used : List SVal) (depth : Nat) (opts : SizeofOptions) :
    ℚ × List SVal :=
  if depth > opts.maxDepth then (0, used)
  else if used.length > opts.maxKeyLimit then (0, used)
  else if v ∈ used then (0, used)
  else
    match v with
    | .jstr s => ((s.length * 2 : ℚ), used ++ [SVal.jstr s])
    | .jbool b => (4, used ++ [SVal.jbool b])
    | .jnum n => (8, used ++ [SVal.jnum n])
    | .jundef => (0, used ++ [SVal.jundef])
    | .jarr elems =>
        if elems.length ≥ 50 then
          ((jsizeofTake 50 elems (used ++ [SVal.jarr elems]) (1 + (1 + depth)) opts).1
              / 100 * elems.length,
            (jsizeofTake 50 elems (used ++ [SVal.jarr elems]) (1 + (1 + depth)) opts).2)
        else jsizeofList elems (used ++ [SVal.jarr elems]) (1 + (1 + depth)) opts
termination_by structural v

/-- Sequential `sizeof` over the first `n` elements, threading `used`
(the `.slice(0, 50).map(...).reduce(...)` pipeline). -/
def jsizeofTake (n : Nat) (elems : List SVal) (used : List SVal) (depth : Nat)
    (opts : SizeofOptions) : ℚ × List SVal :=
  match n, elems with
  | _, [] => (0, used)
  | 0, _ :: _ => (0, used)
  | n + 1, e :: rest =>
      ((jsizeof e used depth opts).1 +
        (jsizeofTake n rest (jsizeof e used depth opts).2 depth opts).1,
        (jsizeofTake n rest (jsizeof e used depth opts).2 depth opts).2)
termination_by structural elems

/-- Sequential `sizeof` over all elements, threading `used` (the
`.map(...).reduce(...)` pipeline). -/
def jsizeofList (elems : List SVal) (used : List SVal) (depth : Nat)
    (opts : SizeofOptions) : ℚ × List SVal :=
  match elems with
  | [] => (0, used)
  | e :: rest =>
      ((jsizeof e used depth opts).1 +
        (jsizeofList rest (jsizeof e used depth opts).2 depth opts).1,
        (jsizeofList rest (jsizeof e used depth opts).2 depth opts).2)
termination_by structural elems
end

/-- `sizeOfArray` (sizeof.ts lines 45-64): with ≥ 50 elements, sum the
sizes of the first 50 at `nextDepth = 1 + depth`, divide by **100** (the
variable is named `avg` but divides the 50-sample by 100), and scale by
the full length; otherwise sum all element sizes. -/
def jsizeOfArray (elems : List SVal) (used : List SVal) (depth : Nat)
    (opts : SizeofOptions) : ℚ × List SVal :=
  if elems.length ≥ 50 then
    ((jsizeofTake 50 elems used (1 + depth) opts).1 / 100 * elems.length,
      (jsizeofTake 50 elems used (1 + depth) opts).2)
  else jsizeofList elems used (1 + depth) opts

/-- The claim's reading of the sampling formula: sample sum divided by the
sample size 50, scaled by the length. -/
def sizeofArraySpecFormula (sampleSum : ℚ) (length : Nat) : ℚ :=
  sampleSum / 50 * length

/-- 50 pairwise-distinct numbers. -/
def c9arr : List SVal := (List.range 50).map (fun i => SVal.jnum (Int.ofNat i))

/-- A JavaScript value for the default fingerprinter
(src/unnamed/part_012): `null`, `undefined`, booleans, numbers, strings,
arrays and plain objects (association lists in insertion order, as
`Object.entries` iterates). -/
inductive FVal where
  | fnull
  | fundef
  | fbool (b : Bool)
  | fnum (n : Int)
  | fstr (s : String)
  | farr (elems : List FVal)
  | fobj (fields : List (String × FVal))

/-- The `value !== undefined` test of the entry filter. -/
def FVal.isUndef : FVal → Bool
  | .fundef => true
  | _ => false

/-- Code-unit comparison of character lists, modelling the ascending
`a[0].localeCompare(b[0])` sort comparator. -/
def charListLe : List Char → List Char → Bool
  | [], _ => true
  | _ :: _, [] => false
  | a :: as, b :: bs =>
      if a.toNat < b.toNat then true
      else if b.toNat < a.toNat then false
      else charListLe as bs

/-- Key comparison for the object-entry sort. -/
def strLe (a b : String) : Bool := charListLe a.data b.data

mutual
/-- Structural size measure used for the recursion of the renderer. -/
def fsize : FVal → Nat
  | .farr elems => fsizeL elems + 1
  | .fobj fields => fsizeF fields + 1
  | _ => 1
termination_by structural v => v

def fsizeL : List FVal → Nat
  | [] => 0
  | v :: rest => fsize v + fsizeL rest + 1
termination_by structural l => l

def fsizeF : List (String × FVal) → Nat
  | [] => 0
  | kv :: rest => fsize kv.2 + fsizeF rest + 1
termination_by structural l => l
end

mutual
/-- `objectToSortedString` (part_012 lines 7-44): depth over 10 throws;
`null`/`undefined` render literally; primitives render with `${obj}`;
arrays render their elements in order at `depth + 1`, joined by commas in
brackets; objects drop entries whose value is `undefined`, sort the rest
by key, and render `key:value` pairs at `depth + 1`, joined by commas in
braces.  The thrown `Error` is the `Except` error; the unsupported-type
throw is unreachable on these values. -/
def objectToSortedString (v : FVal) (depth : Nat) : Except String String :=
  if depth > 10 then .error "Object depth exceeds 10 levels"
  else match v with
  | .fnull => .ok "null"
  | .fundef => .ok "undefined"
  | .fstr s => .ok s
  | .fnum n => .ok (toString n)
  | .fbool b => .ok (if b then "true" else "false")
  | .farr elems =>
      (renderList elems (depth + 1)).map
        (fun parts => "[" ++ String.intercalate "," parts ++ "]")
  | .fobj fields =>
      (renderFields ((fields.filter (fun kv => ! kv.2.isUndef)).insertionSort
          (fun a b => strLe a.1 b.1 = true)) (depth + 1)).map
        (fun parts => "\x7b" ++ String.intercalate "," parts ++ "\x7d")
termination_by fsize v
decreasing_by
  · simp only [fsize]
    omega
  · have hsum : ∀ l : List (String × FVal),
        fsizeF l = (l.map (fun kv => fsize kv.2 + 1)).sum := by
      intro l
      induction l with
      | nil => rfl
      | cons kv rest ih =>
          simp [fsizeF, ih]
          omega
    have hperm : (((fields.filter (fun kv => ! kv.2.isUndef)).insertionSort
        (fun a b => strLe a.1 b.1 = true)).map (fun kv => fsize kv.2 + 1)).Perm
        ((fields.filter (fun kv => ! kv.2.isUndef)).map (fun kv => fsize kv.2 + 1)) :=
      (List.perm_insertionSort _ _).map _
    have hsub : ((fields.filter (fun kv => ! kv.2.isUndef)).map
        (fun kv => fsize kv.2 + 1)).sum ≤
        (fields.map (fun kv => fsize kv.2 + 1)).sum :=
      ((List.filter_sublist _).map _).sum_le_sum (by
        intro a _
        exact Nat.zero_le a)
    have h1 := hsum (((fields.filter (fun kv => ! kv.2.isUndef)).insertionSort
      (fun a b => strLe a.1 b.1 = true)))
    have h2 := hperm.sum_eq
    have h3 := hsum fields
    show fsizeF _ < fsize (.fobj fields)
    have h4 : fsize (.fobj fields) = fsizeF fields + 1 := rfl
    omega

/-- The element walk of the array branch (`map` + `join`), propagating the
first thrown error. -/
def renderList (l : List FVal) (depth : Nat) : Except String (List String) :=
  match l with
  | [] => .ok []
  | v :: rest =>
      (objectToSortedString v depth).bind (fun s =>
        (renderList rest depth).map (fun ss => s :: ss))
termination_by fsizeL l
decreasing_by
  · simp only [fsizeL]
    omega
  · simp only [fsizeL]
    omega

/-- The entry walk of the object branch (`map` over the sorted entries),
propagating the first thrown error. -/
def renderFields (l : List (String × FVal)) (depth : Nat) :
    Except String (List String) :=
  match l with
  | [] => .ok []
  | kv :: rest =>
      (objectToSortedString kv.2 depth).bind (fun s =>
        (renderFields rest depth).map (fun ss => (kv.1 ++ ":" ++ s) :: ss))
termination_by fsizeF l
decreasing_by
  · simp only [fsizeF]
    omega
  · simp only [fsizeF]
    omega
end

mutual
/-- The claim's canonical form: arrays keep their element order, objects
drop `undefined`-valued entries and sort the rest by key, recursively. -/
def canon : FVal → FVal
  | .farr elems => .farr (canonList elems)
  | .fobj fields => .fobj (((canonFields fields).filter
      (fun kv => ! kv.2.isUndef)).insertionSort (fun a b => strLe a.1 b.1 = true))
  | v => v
termination_by structural v => v

def canonList : List FVal → List FVal
  | [] => []
  | v :: rest => canon v :: canonList rest
termination_by structural l => l

def canonFields : List (String × FVal) → List (String × FVal)
  | [] => []
  | kv :: rest => (kv.1, canon kv.2) :: canonFields rest
termination_by structural l => l
end

/-- `cacheKeyTransformDefaultFn` (part_012 lines 3-5): the md5 digest of
the canonical string.  The hash is an arbitrary function parameter; the
claims only use that it is a function. -/
def cacheKeyTransformFn (md5 : String → String) (v : FVal) :
    Except String String :=
  (objectToSortedString v 0).map md5

/-- A concrete object with shuffled keys and an `undefined`-valued entry. -/
def c7a : FVal :=
  .fobj [("b", .fnum 1), ("a", .fstr "x"), ("c", .fundef)]

/-- The same object content with sorted keys and the absent entry gone. -/
def c7b : FVal :=
  .fobj [("a", .fstr "x"), ("b", .fnum 1)]

/-! Basic lemmas about the task-map operations. -/

theorem findInTasks_nil (k : String) : findInTasks [] k = none := rfl

theorem findInTasks_cons (k0 : String) (t0 : CacheTask)
    (rest : List (String × CacheTask)) (k : String) :
    findInTasks ((k0, t0) :: rest) k =
      if k0 = k then some t0 else findInTasks rest k := by
  by_cases h : k0 = k <;> simp [findInTasks, List.find?_cons, h]

theorem findInTasks_append (l1 l2 : List (String × CacheTask)) (k : String) :
    findInTasks (l1 ++ l2) k =
      (findInTasks l1 k).or (findInTasks l2 k) := by
  induction l1 with
  | nil => simp [findInTasks_nil, findInTasks]
  | cons kt rest ih =>
      obtain ⟨k0, t0⟩ := kt
      by_cases h : k0 = k <;>
        simp [List.cons_append, findInTasks_cons, h, ih]

theorem findInTasks_filter_key_ne (tasks : List (String × CacheTask)) (k0 k : String) :
    findInTasks (tasks.filter (fun kt => kt.1 != k0)) k =
      if k = k0 then none else findInTasks tasks k := by
  induction tasks with
  | nil => by_cases h : k = k0 <;> simp [findInTasks_nil, h]
  | cons kt rest ih =>
      obtain ⟨k1, t1⟩ := kt
      rw [List.filter_cons]
      have hhead : (((k1, t1).1 != k0) = true) ↔ ¬ k1 = k0 := by simp
      by_cases h1 : k1 = k0
      · rw [if_neg (by simp [hhead, h1]), ih]
        by_cases h : k = k0
        · rw [if_pos h, if_pos h]
        · rw [if_neg h, if_neg h, findInTasks_cons, if_neg (fun (he : k1 = k) => h (he ▸ h1))]
      · rw [if_pos (hhead.mpr h1), findInTasks_cons, findInTasks_cons, ih]
        by_cases h2 : k1 = k
        · subst h2
          rw [if_pos rfl, if_pos rfl, if_neg (fun he => h1 he)]
        · rw [if_neg h2, if_neg h2]

theorem findInTasks_mapKey (tasks : List (String × CacheTask)) (k0 k : String)
    (g : CacheTask → CacheTask) :
    findInTasks (tasks.map (fun kt => if kt.1 == k0 then (kt.1, g kt.2) else kt)) k =
      if k = k0 then (findInTasks tasks k).map g else findInTasks tasks k := by
  induction tasks with
  | nil => by_cases h : k = k0 <;> simp [findInTasks_nil, h]
  | cons kt rest ih =>
      obtain ⟨k1, t1⟩ := kt
      rw [List.map_cons]
      have hmap : (if ((k1, t1).1 == k0) = true then ((k1, t1).1, g (k1, t1).2) else (k1, t1))
          = if k1 = k0 then (k1, g t1) else (k1, t1) := by
        by_cases h : k1 = k0 <;> simp [h]
      rw [hmap]
      by_cases h1 : k1 = k0
      · rw [if_pos h1, findInTasks_cons, findInTasks_cons]
        by_cases h2 : k1 = k
        · subst h2
          rw [if_pos rfl, if_pos rfl, if_pos h1]
          rfl
        · rw [if_neg h2, if_neg h2, ih]
      · rw [if_neg h1, findInTasks_cons, findInTasks_cons, ih]
        by_cases h2 : k1 = k
        · by_cases h3 : k = k0
          · exact absurd (h2.trans h3) h1
          · simp [h2, h3]
        · simp [h2]

theorem runKeys_nil (ks : List String) (now : Nat) : runKeys [] ks now = [] := rfl

theorem runKeys_cons (k1 : String) (t1 : CacheTask) (rest : List (String × CacheTask))
    (ks : List String) (now : Nat) :
    runKeys ((k1, t1) :: rest) ks now =
      (if k1 ∈ ks then (k1, t1.run now) else (k1, t1)) :: runKeys rest ks now := by
  unfold runKeys
  rw [List.map_cons]

theorem findInTasks_runKeys (tasks : List (String × CacheTask)) (ks : List String)
    (now : Nat) (k : String) :
    findInTasks (runKeys tasks ks now) k =
      (findInTasks tasks k).map (fun t => if k ∈ ks then t.run now else t) := by
  induction tasks with
  | nil => simp [findInTasks_nil, runKeys_nil]
  | cons kt rest ih =>
      obtain ⟨k1, t1⟩ := kt
      rw [runKeys_cons]
      by_cases h2 : k1 = k
      · subst h2
        by_cases hm : k1 ∈ ks <;> simp [findInTasks_cons, hm]
      · by_cases hm : k1 ∈ ks <;> simp [findInTasks_cons, h2, hm, ih]

/-- A found task is a member of the task list. -/
theorem mem_of_findInTasks (tasks : List (String × CacheTask)) (k : String)
    (t : CacheTask) (h : findInTasks tasks k = some t) : (k, t) ∈ tasks := by
  induction tasks with
  | nil => simp [findInTasks_nil] at h
  | cons kt rest ih =>
      obtain ⟨k1, t1⟩ := kt
      rw [findInTasks_cons] at h
      by_cases h1 : k1 = k
      · subst h1
        simp at h
        subst h
        exact List.mem_cons_self _ _
      · simp [h1] at h
        exact List.mem_cons_of_mem _ (ih h)

/-- With duplicate-free keys, membership determines the lookup result. -/
theorem findInTasks_of_mem_nodup (tasks : List (String × CacheTask)) (k : String)
    (t : CacheTask) (hn : (tasks.map (fun kt => kt.1)).Nodup)
    (hm : (k, t) ∈ tasks) : findInTasks tasks k = some t := by
  induction tasks with
  | nil => simp at hm
  | cons kt rest ih =>
      obtain ⟨k1, t1⟩ := kt
      simp only [List.map_cons, List.nodup_cons] at hn
      rcases List.mem_cons.mp hm with h | h
      · cases h
        simp [findInTasks_cons]
      · have hk1 : k1 ≠ k := by
          intro he
          subst he
          exact hn.1 (List.mem_map.mpr ⟨(k1, t), h, rfl⟩)
        rw [findInTasks_cons]
        simp [hk1]
        exact ih hn.2 h

theorem run_of_liberated (t : CacheTask) (now : Nat)
    (h : t.liberatedAt.isSome = true) : t.run now = t := by
  simp [CacheTask.run, h]

theorem run_preserves_slotOutcome (t : CacheTask) (now : Nat) :
    (t.run now).slotOutcome = t.slotOutcome := by
  unfold CacheTask.run
  split <;> rfl

theorem run_preserves_taskId (t : CacheTask) (now : Nat) :
    (t.run now).taskId = t.taskId := by
  unfold CacheTask.run
  split <;> rfl

theorem runKeys_nil_keys (tasks : List (String × CacheTask)) (now : Nat) :
    runKeys tasks [] now = tasks := by
  unfold runKeys
  simp

theorem consume_tasks_eq_runKeys (s : CacherState) :
    ∃ ks : List String, s.consume.tasks = runKeys s.tasks ks s.now ∧
      s.consume.now = s.now ∧ s.consume.cfg = s.cfg ∧ s.consume.nextId = s.nextId ∧
      s.consume.overMemoryLimitCount = s.overMemoryLimitCount ∧
      s.consume.timeoutCount = s.timeoutCount := by
  unfold CacherState.consume
  by_cases h1 : s.queuedTasks.isEmpty = true
  · rw [if_pos h1]
    exact ⟨[], (runKeys_nil_keys _ _).symm, rfl, rfl, rfl, rfl, rfl⟩
  · rw [if_neg h1]
    by_cases h2 : s.cfg.concurrencyCap = 0
    · rw [if_pos h2]
      exact ⟨_, rfl, rfl, rfl, rfl, rfl, rfl⟩
    · rw [if_neg h2]
      by_cases h3 : s.availableSlots ≤ 0
      · rw [if_pos h3]
        exact ⟨[], (runKeys_nil_keys _ _).symm, rfl, rfl, rfl, rfl, rfl⟩
      · rw [if_neg h3]
        exact ⟨_, rfl, rfl, rfl, rfl, rfl, rfl⟩

theorem findTask_consume_map (s : CacherState) (k : String) :
    ∃ b : Bool, s.consume.findTask k =
      (s.findTask k).map (fun t => if b then t.run s.now else t) := by
  obtain ⟨ks, htasks, -⟩ := consume_tasks_eq_runKeys s
  refine ⟨decide (k ∈ ks), ?_⟩
  show findInTasks s.consume.tasks k = _
  rw [htasks, findInTasks_runKeys]
  by_cases h : k ∈ ks <;> simp [h, CacherState.findTask]

theorem findTask_consume_of_liberated (s : CacherState) (k : String) (t : CacheTask)
    (h : s.findTask k = some t) (hl : t.liberatedAt.isSome = true) :
    s.consume.findTask k = some t := by
  obtain ⟨b, hb⟩ := findTask_consume_map s k
  rw [hb, h]
  cases b <;> simp [run_of_liberated t s.now hl]

/-! The structural well-formedness invariant of reachable cacher states. -/

theorem TaskWF.mono {n m : Nat} (h : n ≤ m) {kt : String × CacheTask}
    (hwf : TaskWF n kt) : TaskWF m kt :=
  ⟨lt_of_lt_of_le hwf.1 h, hwf.2.1, hwf.2.2.1, hwf.2.2.2.1, hwf.2.2.2.2⟩

theorem TasksWF.filter {n : Nat} {tasks : List (String × CacheTask)}
    (h : TasksWF n tasks) (p : String × CacheTask → Bool) :
    TasksWF n (tasks.filter p) := by
  refine ⟨?_, fun kt hm => h.2 kt (List.mem_of_mem_filter hm)⟩
  exact List.Nodup.sublist (List.Sublist.map _ (List.filter_sublist _)) h.1

theorem TasksWF.mapKeyed {n : Nat} {tasks : List (String × CacheTask)}
    (h : TasksWF n tasks) (f : String × CacheTask → String × CacheTask)
    (hfst : ∀ kt, (f kt).1 = kt.1)
    (hwf : ∀ kt ∈ tasks, TaskWF n kt → TaskWF n (f kt)) :
    TasksWF n (tasks.map f) := by
  constructor
  · have : (tasks.map f).map (fun kt => kt.1) = tasks.map (fun kt => kt.1) := by
      rw [List.map_map]
      exact List.map_congr_left (fun kt _ => hfst kt)
    rw [this]
    exact h.1
  · intro kt hm
    obtain ⟨kt0, hm0, rfl⟩ := List.mem_map.mp hm
    exact hwf kt0 hm0 (h.2 kt0 hm0)

theorem run_wf {n : Nat} {k : String} {t : CacheTask} (now : Nat)
    (h : TaskWF n (k, t)) : TaskWF n (k, t.run now) := by
  unfold CacheTask.run
  by_cases hl : t.liberatedAt.isSome = true
  · rw [if_pos hl]
    exact h
  · have hnone : t.liberatedAt = none := by
      cases he : t.liberatedAt
      · rfl
      · rw [he] at hl
        simp at hl
    have h0 : t.fetchStarts = 0 := h.2.2.1 hnone
    rw [if_neg hl]
    refine ⟨h.1, by rw [h0], fun hn => by simp at hn, fun _ => rfl, fun _ => rfl⟩

theorem runKeys_wf {n : Nat} {tasks : List (String × CacheTask)}
    (h : TasksWF n tasks) (ks : List String) (now : Nat) :
    TasksWF n (runKeys tasks ks now) := by
  refine h.mapKeyed _ (fun kt => ?_) (fun kt hm hwf => ?_)
  · by_cases hm : kt.1 ∈ ks <;> simp [hm]
  · by_cases hmem : kt.1 ∈ ks
    · obtain ⟨k0, t0⟩ := kt
      simpa [hmem] using run_wf now hwf
    · simpa [hmem] using hwf

theorem consume_goodState {s : CacherState} (h : GoodState s) : GoodState s.consume := by
  obtain ⟨ks, htasks, -, -, hnext, -⟩ := consume_tasks_eq_runKeys s
  unfold GoodState
  rw [htasks, hnext]
  exact runKeys_wf h ks s.now

theorem touch_goodState {s : CacherState} (h : GoodState s) (k : String) :
    GoodState (s.touch k) := by
  unfold GoodState CacherState.touch
  refine h.mapKeyed _ (fun kt => ?_) (fun kt hm hwf => ?_)
  · dsimp only
    by_cases hk : (kt.1 == k) = true
    · rw [if_pos hk]
    · rw [if_neg hk]
  · dsimp only
    by_cases hk : (kt.1 == k) = true
    · rw [if_pos hk]
      exact ⟨hwf.1, hwf.2.1, hwf.2.2.1, hwf.2.2.2.1, hwf.2.2.2.2⟩
    · rw [if_neg hk]
      exact hwf

theorem mkCacheTask_wf (id now : Nat) (arg : SetArg) (k : String) :
    TaskWF (id + 1) (k, mkCacheTask id now arg) := by
  unfold TaskWF mkCacheTask
  cases arg <;> simp [SetArg.isErrorInstance, looseNeqUndefined]

theorem set_goodState {s : CacherState} (h : GoodState s) (k : String) (arg : SetArg) :
    GoodState (s.set k arg) := by
  unfold CacherState.set
  apply consume_goodState
  unfold GoodState
  constructor
  · simp only [List.map_append]
    rw [List.nodup_append]
    refine ⟨?_, by simp, ?_⟩
    · exact List.Nodup.sublist (List.Sublist.map _ (List.filter_sublist _)) h.1
    · intro a ha hb
      simp only [List.mem_map] at ha hb
      obtain ⟨kt, hkt, rfl⟩ := ha
      obtain ⟨kt2, hkt2, heq⟩ := hb
      simp only [List.mem_singleton] at hkt2
      subst hkt2
      have hkk : k = kt.1 := heq
      have hne := List.of_mem_filter hkt
      rw [← hkk] at hne
      simp at hne
  · intro kt hm
    rcases List.mem_append.mp hm with hm1 | hm2
    · exact (h.2 kt (List.mem_of_mem_filter hm1)).mono (Nat.le_succ _)
    · simp only [List.mem_singleton] at hm2
      subst hm2
      exact mkCacheTask_wf s.nextId s.now arg k

theorem getSync_goodState {s : CacherState} (h : GoodState s) (k : String) (b : Bool) :
    GoodState (s.getSync k b) := by
  unfold CacherState.getSync
  split
  · exact set_goodState h k _
  · split
    · split
      · exact set_goodState h k _
      · exact h
    · exact h

theorem get_goodState {s : CacherState} (h : GoodState s) (k : String) (b : Bool) :
    GoodState (s.get k b) :=
  touch_goodState (getSync_goodState h k b) k

theorem settleWith_goodState {s : CacherState} (h : GoodState s) (k : String) (o : Outcome)
    (t : CacheTask) (hfind : s.findTask k = some t) (hlib : t.liberatedAt.isSome = true) :
    GoodState (s.settleWith k o) := by
  unfold CacherState.settleWith
  apply consume_goodState
  unfold GoodState
  refine h.mapKeyed _ (fun kt => ?_) (fun kt hm hwf => ?_)
  · dsimp only
    by_cases hk : (kt.1 == k) = true
    · rw [if_pos hk]
    · rw [if_neg hk]
  · dsimp only
    by_cases hk : (kt.1 == k) = true
    · obtain ⟨k0, t0⟩ := kt
      have hk0 : k0 = k := by simpa using hk
      rw [if_pos hk]
      have ht0 : t0 = t := by
        have h1 : findInTasks s.tasks k0 = some t0 :=
          findInTasks_of_mem_nodup s.tasks k0 t0 h.1 hm
        have h2 : findInTasks s.tasks k = some t := hfind
        rw [hk0] at h1
        rw [h1] at h2
        exact Option.some_inj.mp h2
      subst ht0
      have hnotnone : ¬ t0.liberatedAt = none := by
        intro hn
        rw [hn] at hlib
        simp at hlib
      exact ⟨hwf.1, hwf.2.1, fun hn => absurd hn hnotnone, fun _ => hlib, fun _ => hlib⟩
    · rw [if_neg hk]
      exact hwf

theorem flush_goodState {s : CacherState} (h : GoodState s)
    (scoreFn : String × CacheTask → ℚ) : GoodState (s.flush scoreFn) := by
  unfold CacherState.flush
  split
  · show TasksWF _ _
    unfold CacherState.flushMemory CacherState.cleanupExpiredTasks
    exact (h.filter _).filter _
  · exact h.filter _

theorem goodState_step {allow : Bool} {s s2 : CacherState}
    (h : GoodState s) (hstep : StepG allow s s2) : GoodState s2 := by
  cases hstep with
  | tick dt => exact h
  | getOp k b => exact get_goodState h k b
  | setOp k arg harg => exact set_goodState h k arg
  | deleteOp k => exact h.filter _
  | consumeOp => exact consume_goodState h
  | settleOp k t o hfind hlib hres hout => exact settleWith_goodState h k o t hfind hlib
  | flushOp scoreFn => exact flush_goodState h scoreFn
  | clearOp =>
      refine ⟨List.nodup_nil, ?_⟩
      intro kt hm
      simp [CacherState.clear] at hm

/-- Every reachable state is well-formed. -/
theorem reach_good {allow : Bool} {cfg : CacherConfig} {t0 : Nat} {s : CacherState}
    (h : ReachG allow cfg t0 s) : GoodState s := by
  induction h with
  | init => exact ⟨by simp [initState], by simp [initState]⟩
  | step hr hstep ih => exact goodState_step ih hstep

/-! Further helper lemmas about settlement, admission and the timeout race. -/

theorem run_preserves_taskError (t : CacheTask) (now : Nat) :
    (t.run now).taskError = t.taskError := by
  unfold CacheTask.run
  split <;> rfl

theorem findTask_consume_outcome_error (s : CacherState) (k : String) :
    (s.consume.findTask k).map (fun u => (u.slotOutcome, u.taskError)) =
      (s.findTask k).map (fun u => (u.slotOutcome, u.taskError)) := by
  obtain ⟨b, hb⟩ := findTask_consume_map s k
  rw [hb]
  cases hf : s.findTask k with
  | none => rfl
  | some t =>
      cases b <;> simp [run_preserves_slotOutcome, run_preserves_taskError]

/-- After settling the task stored under `k` with outcome `o`, the stored
task's slot outcome is `o`, and on a rejection the error is captured. -/
theorem findTask_settleWith_outcome (s2 : CacherState) (k : String) (t2 : CacheTask)
    (o : Outcome) (hfind : s2.findTask k = some t2) :
    ((s2.settleWith k o).findTask k).map (fun u => (u.slotOutcome, u.taskError)) =
      some (some o, match o with | .ok _ => t2.taskError | .error e => some e) := by
  unfold CacherState.settleWith
  rw [findTask_consume_outcome_error]
  show (findInTasks (s2.tasks.map _) k).map _ = _
  rw [findInTasks_mapKey]
  rw [if_pos rfl]
  have hfind2 : findInTasks s2.tasks k = some t2 := hfind
  rw [hfind2]
  cases o <;> rfl

/-- A fresh task created with an absent value is `QUEUED` under every
configuration, at its creation instant. -/
theorem mkCacheTask_absent_status (cfg : CacherConfig) (id now : Nat) (arg : SetArg)
    (habs : arg.isAbsent = true) :
    (mkCacheTask id now arg).status cfg now = .QUEUED := by
  cases arg <;> simp [SetArg.isAbsent, looseNeqUndefined] at habs <;>
    cases cfg.expirationStrategy <;>
      simp [mkCacheTask, CacheTask.status, CacheTask.isExpired,
        SetArg.isErrorInstance, looseNeqUndefined]

/-- Lookup of the just-installed task, before the `consume` call of `set`. -/
theorem findTask_set_pre (s : CacherState) (k : String) (arg : SetArg) :
    findInTasks ((s.deleteByCacheKey k).tasks ++ [(k, mkCacheTask s.nextId s.now arg)]) k =
      some (mkCacheTask s.nextId s.now arg) := by
  rw [findInTasks_append]
  have h1 : findInTasks (s.deleteByCacheKey k).tasks k = none := by
    show findInTasks (s.tasks.filter _) k = none
    rw [findInTasks_filter_key_ne]
    simp
  rw [h1, findInTasks_cons]
  simp

/-- With an unlimited cap, `consume` runs every queued task. -/
theorem consume_runs_queued_of_cap_zero (s : CacherState) (t : CacheTask)
    (hcap : s.cfg.concurrencyCap = 0) (k : String)
    (hfind : s.findTask k = some t)
    (hstat : t.status s.cfg s.now = .QUEUED) :
    s.consume.findTask k = some (t.run s.now) := by
  have hmem : (k, t) ∈ s.tasks := mem_of_findInTasks s.tasks k t hfind
  have hmemf : (k, t) ∈ s.tasks.filter (fun kt => kt.2.status s.cfg s.now == .QUEUED) := by
    rw [List.mem_filter]
    exact ⟨hmem, by simp [hstat]⟩
  have hmemq : (k, t) ∈ s.queuedTasks := by
    unfold CacherState.queuedTasks
    exact (List.mem_insertionSort _).mpr hmemf
  have hkeys : k ∈ s.queuedTasks.map (fun kt => kt.1) :=
    List.mem_map.mpr ⟨(k, t), hmemq, rfl⟩
  have hne : ¬ s.queuedTasks.isEmpty = true := by
    intro hq
    rw [List.isEmpty_iff] at hq
    rw [hq] at hmemq
    simp at hmemq
  show findInTasks s.consume.tasks k = _
  unfold CacherState.consume
  rw [if_neg hne, if_pos hcap]
  show findInTasks (runKeys s.tasks (s.queuedTasks.map (fun kt => kt.1)) s.now) k = _
  rw [findInTasks_runKeys]
  have hf : findInTasks s.tasks k = some t := hfind
  rw [hf]
  simp [hkeys]

/-- C8: for every task, the default eviction score (the one `score()` uses
when no custom score function is configured) equals
`(usedCount × 1024) / max(usedBytes, 1) / timeScore` with
`timeScore = ((2·now − createdAt − lastAccessedAt) / 2) / ttlMs` computed
from the cacher's configured TTL, a `timeScore` of exactly 0 being replaced
by 1. -/
theorem c8_default_score_formula (ttlMs : Nat) (t : CacheTask) (now : Nat)
    (q1 q2 q3 q4 q5 q6 : ℚ) :
    CacheTask.score none ttlMs t now =
      cacheScoreSpecFormula ttlMs t.usedCount t.usedBytes t.createdAt t.lastAccessedAt now ∧
    calcCacheScoreDefaultFn q1 q2 q3 q4 q5 q6 =
      cacheScoreSpecFormula q1 q2 q3 q4 q5 q6 := by
  have key : ∀ a b c d e f : ℚ,
      calcCacheScoreDefaultFn a b c d e f = cacheScoreSpecFormula a b c d e f := by
    intro a b c d e f
    unfold calcCacheScoreDefaultFn cacheScoreSpecFormula
    have h2 : f * 2 - d - e = 2 * f - d - e := by ring
    rw [h2]
  exact ⟨key _ _ _ _ _ _, key _ _ _ _ _ _⟩

/-- C10: `set(key, null)` does not cache the value `null`.  The loose test
`value != undefined` fails for `null`, so the constructor leaves the slot
untouched, the new task starts `QUEUED` with an empty slot, and on
admission (immediate under an unlimited cap) the user fetch function is
invoked once; after the fetch settles, the slot holds the fetch's result. -/
theorem c10_set_null_not_cached (s : CacherState) (k : String) (v : JsVal) (id now2 : Nat)
    (hcap : s.cfg.concurrencyCap = 0) :
    looseNeqUndefined .nullArg = false ∧
    (mkCacheTask id now2 .nullArg).liberatedAt = none ∧
    (mkCacheTask id now2 .nullArg).slotOutcome = none ∧
    (∀ cfg : CacherConfig, (mkCacheTask id now2 .nullArg).status cfg now2 = .QUEUED) ∧
    ((s.set k .nullArg).findTask k).map (fun t => t.slotOutcome) = some none ∧
    ((s.set k .nullArg).findTask k).map (fun t => t.fetchStarts) = some 1 ∧
    (∀ (s2 : CacherState) (t2 : CacheTask), s2.findTask k = some t2 →
      ((s2.settleWith k (.ok v)).findTask k).map (fun u => u.slotOutcome) =
        some (some (.ok v))) := by
  have habs : SetArg.isAbsent .nullArg = true := rfl
  have hget : (s.set k .nullArg).findTask k =
      some ((mkCacheTask s.nextId s.now .nullArg).run s.now) :=
    consume_runs_queued_of_cap_zero
      { s.deleteByCacheKey k with
        tasks := (s.deleteByCacheKey k).tasks ++ [(k, mkCacheTask s.nextId s.now .nullArg)],
        nextId := s.nextId + 1 }
      (mkCacheTask s.nextId s.now .nullArg) hcap k
      (findTask_set_pre s k .nullArg)
      (mkCacheTask_absent_status s.cfg s.nextId s.now .nullArg habs)
  have hrun : (mkCacheTask s.nextId s.now .nullArg).run s.now =
      { mkCacheTask s.nextId s.now .nullArg with
        liberatedAt := some s.now, fetchStarts := 1 } := rfl
  refine ⟨rfl, rfl, rfl, fun cfg => mkCacheTask_absent_status cfg id now2 _ habs, ?_, ?_, ?_⟩
  · rw [hget, hrun]
    rfl
  · rw [hget, hrun]
    rfl
  · intro s2 t2 hfind
    have h := findTask_settleWith_outcome s2 k t2 (.ok v) hfind
    have hcomp : ((s2.settleWith k (.ok v)).findTask k).map (fun u => u.slotOutcome) =
        (((s2.settleWith k (.ok v)).findTask k).map
          (fun u => (u.slotOutcome, u.taskError))).map (fun p => p.1) := by
      cases (s2.settleWith k (.ok v)).findTask k <;> rfl
    rw [hcomp, h]
    rfl

theorem consume_timeoutCount (s : CacherState) :
    s.consume.timeoutCount = s.timeoutCount := by
  obtain ⟨-, -, -, -, -, -, ht⟩ := consume_tasks_eq_runKeys s
  exact ht

theorem set_timeoutCount (s : CacherState) (k : String) (arg : SetArg) :
    (s.set k arg).timeoutCount = s.timeoutCount := by
  show (CacherState.consume _).timeoutCount = _
  rw [consume_timeoutCount]
  rfl

theorem getSync_timeoutCount (s : CacherState) (k : String) (b : Bool) :
    (s.getSync k b).timeoutCount = s.timeoutCount := by
  unfold CacherState.getSync
  split
  · exact set_timeoutCount s k _
  · split
    · split
      · exact set_timeoutCount s k _
      · rfl
    · rfl

theorem get_timeoutCount (s : CacherState) (k : String) (b : Bool) :
    (s.get k b).timeoutCount = s.timeoutCount := by
  show ((s.getSync k b).touch k).timeoutCount = _
  show (s.getSync k b).timeoutCount = _
  exact getSync_timeoutCount s k b

theorem settleWith_timeoutCount (s : CacherState) (k : String) (o : Outcome) :
    (s.settleWith k o).timeoutCount = s.timeoutCount := by
  show (CacherState.consume _).timeoutCount = _
  rw [consume_timeoutCount]

theorem flush_timeoutCount (s : CacherState) (scoreFn : String × CacheTask → ℚ) :
    (s.flush scoreFn).timeoutCount = s.timeoutCount := by
  unfold CacherState.flush
  split
  · rfl
  · rfl

/-- C5 (code evaluation at the failing input): when the timeout timer fires
first, the raced promise is rejected with the timeout error and settling
the task's slot with it rejects every awaiter with that error — but no
reachable state has a nonzero `timeoutCount`, because the code never
increments it, so `health.timeouts` never reflects the timeout. -/
theorem c5_timeout_counter_never_incremented
    (cfg : CacherConfig) (t0 : Nat) (s : CacherState)
    (h : ReachG true cfg t0 s) :
    s.healthTimeouts = 0 ∧
    (∀ (m ttl : Nat) (task : Outcome), 0 < min ttl m →
      limitTimeout (computeTimeoutMs (some m) ttl) true timeoutErrorMessage task =
        .error timeoutErrorMessage) ∧
    (∀ (s2 : CacherState) (k : String) (t2 : CacheTask), s2.findTask k = some t2 →
      ((s2.settleWith k (.error timeoutErrorMessage)).findTask k).map
          (fun u => (u.slotOutcome, u.taskError)) =
        some (some (.error timeoutErrorMessage), some timeoutErrorMessage)) := by
  refine ⟨?_, ?_, ?_⟩
  · induction h with
    | init => rfl
    | step hr hstep ih =>
        cases hstep with
        | tick dt => exact ih
        | getOp k b => rw [CacherState.healthTimeouts, get_timeoutCount]; exact ih
        | setOp k arg harg => rw [CacherState.healthTimeouts, set_timeoutCount]; exact ih
        | deleteOp k => exact ih
        | consumeOp => rw [CacherState.healthTimeouts, consume_timeoutCount]; exact ih
        | settleOp k t o hfind hlib hres hout =>
            rw [CacherState.healthTimeouts, settleWith_timeoutCount]
            exact ih
        | flushOp scoreFn => rw [CacherState.healthTimeouts, flush_timeoutCount]; exact ih
        | clearOp => rfl
  · intro m ttl task hpos
    show limitTimeout (some (min ttl m)) true timeoutErrorMessage task = _
    simp only [limitTimeout]
    rw [if_neg (Nat.pos_iff_ne_zero.mp hpos)]
    rfl
  · intro s2 k t2 hfind
    rw [findTask_settleWith_outcome s2 k t2 _ hfind]

/-- Witness for C10: a concrete cacher where `set("k", null)` leaves the
slot empty and triggers one fetch invocation on admission. -/
theorem c10_set_null_not_cached_witness :
    looseNeqUndefined .nullArg = false ∧
    (((initState c10cfg 5).set "k" .nullArg).findTask "k").map (fun t => t.slotOutcome) =
      some none ∧
    (((initState c10cfg 5).set "k" .nullArg).findTask "k").map (fun t => t.fetchStarts) =
      some 1 := by
  have H := c10_set_null_not_cached (initState c10cfg 5) "k" (.vnum 3) 0 5 rfl
  exact ⟨H.1, H.2.2.2.2.1, H.2.2.2.2.2.1⟩

/-- Witness for C5: at a concrete reachable state the reported
`health.timeouts` is 0, and a concrete raced fetch whose timer fires first
is rejected with the timeout error. -/
theorem c5_timeout_counter_never_incremented_witness :
    (initState c5cfg 0).healthTimeouts = 0 ∧
    limitTimeout (computeTimeoutMs (some 100) 300000) true timeoutErrorMessage
      (.ok (.vnum 1)) = .error timeoutErrorMessage := by
  have H := c5_timeout_counter_never_incremented c5cfg 0 (initState c5cfg 0) ReachG.init
  exact ⟨H.1, H.2.1 100 300000 (.ok (.vnum 1)) (by decide)⟩

/-! Claim C6: the reported memory usage versus the `ACTIVE` byte sum. -/

theorem sum_filter_eq_sum_of_zero (l : List (String × CacheTask))
    (p : String × CacheTask → Bool)
    (h : ∀ kt ∈ l, p kt = false → kt.2.usedBytes = 0) :
    ((l.filter p).map (fun kt => kt.2.usedBytes)).sum =
      (l.map (fun kt => kt.2.usedBytes)).sum := by
  induction l with
  | nil => rfl
  | cons kt rest ih =>
      rw [List.filter_cons, List.map_cons, List.sum_cons]
      by_cases hp : p kt = true
      · rw [if_pos hp, List.map_cons, List.sum_cons,
          ih (fun kt2 hm hf => h kt2 (List.mem_cons_of_mem _ hm) hf)]
      · have h0 : kt.2.usedBytes = 0 :=
          h kt (List.mem_cons_self _ _) (Bool.not_eq_true _ ▸ hp)
        rw [if_neg hp, ih (fun kt2 hm hf => h kt2 (List.mem_cons_of_mem _ hm) hf), h0,
          Nat.zero_add]

/-- C6 (amended): `memory.currentUsageBytes` reports the byte sum over ALL
stored tasks (`usedMemoryBytes` reduces over the whole map); this equals
the sum over `ACTIVE` tasks exactly when every non-`ACTIVE` task holds zero
bytes — true right after the expiration pass, but not in general. -/
theorem c6_memory_metric_amended (s : CacherState)
    (h : ∀ kt ∈ s.tasks, kt.2.status s.cfg s.now ≠ .ACTIVE → kt.2.usedBytes = 0) :
    s.memoryCurrentUsageBytes = (s.tasks.map (fun kt => kt.2.usedBytes)).sum ∧
    s.memoryCurrentUsageBytes = s.activeUsedBytes := by
  refine ⟨rfl, ?_⟩
  show (s.tasks.map _).sum = _
  unfold CacherState.activeUsedBytes
  refine (sum_filter_eq_sum_of_zero _ _ (fun kt hm hf => h kt hm ?_)).symm
  intro he
  rw [he] at hf
  simp at hf

/-- C6 (counterexample): in the reachable state `c6state` the stored task is
`EXPIRED` yet still holds 8 bytes, so `memory.currentUsageBytes` is 8 while
the byte sum over `ACTIVE` tasks is 0 — the claimed equality fails. -/
theorem c6_memory_metric_counterexample :
    ReachG true c6cfg 0 c6state ∧
    (c6state.findTask "k").map (fun t => t.status c6state.cfg c6state.now) =
      some .EXPIRED ∧
    c6state.memoryCurrentUsageBytes = 8 ∧
    c6state.activeUsedBytes = 0 := by
  refine ⟨?_, by decide, by decide, by decide⟩
  have h1 : ReachG true c6cfg 0 (initState c6cfg 0) := ReachG.init
  have h2 := ReachG.step h1 (StepG.setOp _ "k" .undefinedArg (Or.inl rfl))
  have h3 := ReachG.step h2 (StepG.settleOp _ "k"
    ((mkCacheTask 0 0 .undefinedArg).run 0) (.ok (.vnum 7))
    (by decide) (by decide) (by decide) (Or.inl (by decide)))
  exact ReachG.step h3 (StepG.tick _ 500)

/-! Claim C2: the sweeper's memory pass. -/

/-- The eviction loop deletes exactly a prefix of the score-sorted list. -/
theorem evictKeys_eq_take (l : List (String × CacheTask)) (target : Int) :
    evictKeys l target = (l.take (evictLen l target)).map (fun kt => kt.1) := by
  induction l generalizing target with
  | nil => rfl
  | cons kt rest ih =>
      unfold evictKeys evictLen
      by_cases h : target ≤ (kt.2.usedBytes : Int)
      · rw [if_pos h, if_pos h]
        rfl
      · rw [if_neg h, if_neg h, List.take_succ_cons, List.map_cons, ih]

theorem evictLen_le_length (l : List (String × CacheTask)) (target : Int) :
    evictLen l target ≤ l.length := by
  induction l generalizing target with
  | nil => exact Nat.le_refl 0
  | cons kt rest ih =>
      unfold evictLen
      by_cases h : target ≤ (kt.2.usedBytes : Int)
      · rw [if_pos h]
        simp
      · rw [if_neg h, List.length_cons]
        exact Nat.succ_le_succ (ih _)

/-- The eviction loop stops once the accumulated released bytes reach the
target, or runs out of candidates. -/
theorem evict_stop (l : List (String × CacheTask)) (target : Int) :
    target ≤ ((l.take (evictLen l target)).map (fun kt => (kt.2.usedBytes : Int))).sum ∨
      evictLen l target = l.length := by
  induction l generalizing target with
  | nil => exact Or.inr rfl
  | cons kt rest ih =>
      unfold evictLen
      by_cases h : target ≤ (kt.2.usedBytes : Int)
      · left
        rw [if_pos h]
        simpa using h
      · rw [if_neg h]
        rcases ih (target - kt.2.usedBytes) with h2 | h2
        · left
          rw [List.take_succ_cons, List.map_cons, List.sum_cons]
          omega
        · right
          rw [h2, List.length_cons]

/-- Before the stopping point, the accumulated released bytes are still
short of the target (the loop does not delete more than needed). -/
theorem evict_minimal (l : List (String × CacheTask)) (target : Int)
    (hpos : 0 < target) (m : Nat) (hm : m < evictLen l target) :
    ((l.take m).map (fun kt => (kt.2.usedBytes : Int))).sum < target := by
  induction l generalizing target m with
  | nil => simp [evictLen] at hm
  | cons kt rest ih =>
      unfold evictLen at hm
      by_cases h : target ≤ (kt.2.usedBytes : Int)
      · rw [if_pos h] at hm
        have hm0 : m = 0 := Nat.lt_one_iff.mp hm
        subst hm0
        simpa using hpos
      · rw [if_neg h] at hm
        cases m with
        | zero => simpa using hpos
        | succ m2 =>
            rw [List.take_succ_cons, List.map_cons, List.sum_cons]
            have hm2 : m2 < evictLen rest (target - kt.2.usedBytes) :=
              Nat.lt_of_succ_lt_succ hm
            have hpos2 : 0 < target - (kt.2.usedBytes : Int) := by omega
            have := ih (target - kt.2.usedBytes) hpos2 m2 hm2
            omega

theorem filter_key_eq_nil (l : List (String × CacheTask)) (x : String)
    (h : ∀ kt ∈ l, kt.1 ≠ x) :
    l.filter (fun kt => decide (kt.1 = x)) = [] := by
  induction l with
  | nil => rfl
  | cons kt rest ih =>
      rw [List.filter_cons, if_neg (by simpa using h kt (List.mem_cons_self _ _))]
      exact ih (fun kt2 hm => h kt2 (List.mem_cons_of_mem _ hm))

theorem sum_bytes_filter_or (l : List (String × CacheTask))
    (p q : String × CacheTask → Bool)
    (hd : ∀ kt ∈ l, ¬(p kt = true ∧ q kt = true)) :
    ((l.filter (fun kt => p kt || q kt)).map (fun kt => kt.2.usedBytes)).sum =
      ((l.filter p).map (fun kt => kt.2.usedBytes)).sum +
      ((l.filter q).map (fun kt => kt.2.usedBytes)).sum := by
  induction l with
  | nil => rfl
  | cons kt rest ih =>
      have ihr := ih (fun kt2 hm => hd kt2 (List.mem_cons_of_mem _ hm))
      rw [List.filter_cons, List.filter_cons, List.filter_cons]
      by_cases hp : p kt = true
      · have hq : q kt = false := by
          cases hqv : q kt
          · rfl
          · exact absurd ⟨hp, hqv⟩ (hd kt (List.mem_cons_self _ _))
        rw [if_pos (by simp [hp]), if_pos hp, if_neg (by simp [hq]), List.map_cons,
          List.sum_cons, List.map_cons, List.sum_cons, ihr]
        omega
      · have hp2 : p kt = false := Bool.not_eq_true _ ▸ hp
        by_cases hq : q kt = true
        · rw [if_pos (by simp [hq]), if_neg (by simp [hp2]), if_pos hq, List.map_cons,
            List.sum_cons, List.map_cons, List.sum_cons, ihr]
          omega
        · have hq2 : q kt = false := Bool.not_eq_true _ ▸ hq
          rw [if_neg (by simp [hp2, hq2]), if_neg (by simp [hp2]), if_neg (by simp [hq2]), ihr]

theorem sum_bytes_filter_key_eq (l : List (String × CacheTask)) (kv : String × CacheTask)
    (hn : (l.map (fun kt => kt.1)).Nodup) (hmem : kv ∈ l) :
    ((l.filter (fun kt => decide (kt.1 = kv.1))).map (fun kt => kt.2.usedBytes)).sum =
      kv.2.usedBytes := by
  induction l with
  | nil => simp at hmem
  | cons kt rest ih =>
      simp only [List.map_cons, List.nodup_cons] at hn
      rcases List.mem_cons.mp hmem with h | h
      · subst h
        rw [List.filter_cons, if_pos (by simp)]
        rw [filter_key_eq_nil rest kv.1 (fun kt2 hm2 he => hn.1 (he ▸ List.mem_map.mpr
          ⟨kt2, hm2, rfl⟩))]
        simp
      · have hne : kt.1 ≠ kv.1 := by
          intro he
          exact hn.1 (he ▸ List.mem_map.mpr ⟨kv, h, rfl⟩)
        rw [List.filter_cons, if_neg (by simpa using hne)]
        exact ih hn.2 h

theorem sum_bytes_filter_mem_keys (l vs : List (String × CacheTask))
    (hn : (l.map (fun kt => kt.1)).Nodup) (hvn : (vs.map (fun kt => kt.1)).Nodup)
    (hsub : ∀ kv ∈ vs, kv ∈ l) :
    ((l.filter (fun kt => decide (kt.1 ∈ vs.map (fun kt2 => kt2.1)))).map
      (fun kt => kt.2.usedBytes)).sum = (vs.map (fun kt => kt.2.usedBytes)).sum := by
  induction vs with
  | nil => simp
  | cons kv vs2 ih =>
      simp only [List.map_cons, List.nodup_cons] at hvn
      have hsplit : l.filter (fun kt => decide (kt.1 ∈ kv.1 :: vs2.map (fun kt2 => kt2.1)))
          = l.filter (fun kt =>
              decide (kt.1 = kv.1) || decide (kt.1 ∈ vs2.map (fun kt2 => kt2.1))) := by
        apply List.filter_congr
        intro kt _
        by_cases he : kt.1 = kv.1 <;> simp [List.mem_cons, he]
      have hdisj : ∀ kt ∈ l,
          ¬(decide (kt.1 = kv.1) = true ∧
            decide (kt.1 ∈ vs2.map (fun kt2 => kt2.1)) = true) := by
        intro kt hm hand
        have h1 : kt.1 = kv.1 := of_decide_eq_true hand.1
        have h2 : kt.1 ∈ vs2.map (fun kt2 => kt2.1) := of_decide_eq_true hand.2
        exact hvn.1 (h1 ▸ h2)
      simp only [List.map_cons, List.sum_cons]
      rw [hsplit, sum_bytes_filter_or l _ _ hdisj,
        sum_bytes_filter_key_eq l kv hn (hsub kv (List.mem_cons_self _ _)),
        ih hvn.2 (fun kv2 hm2 => hsub kv2 (List.mem_cons_of_mem _ hm2))]

theorem sum_bytes_filter_split (l : List (String × CacheTask)) (ks : List String) :
    ((l.filter (fun kt => decide (kt.1 ∉ ks))).map (fun kt => kt.2.usedBytes)).sum +
      ((l.filter (fun kt => decide (kt.1 ∈ ks))).map (fun kt => kt.2.usedBytes)).sum =
      (l.map (fun kt => kt.2.usedBytes)).sum := by
  induction l with
  | nil => rfl
  | cons kt rest ih =>
      rw [List.filter_cons, List.filter_cons, List.map_cons, List.sum_cons]
      by_cases hm : kt.1 ∈ ks
      · rw [if_neg (by simpa using hm), if_pos (by simpa using hm), List.map_cons,
          List.sum_cons]
        omega
      · rw [if_pos (by simpa using hm), if_neg (by simpa using hm), List.map_cons,
          List.sum_cons]
        omega

/-- Witness for the amended C6: before expiry (clock still at the
resolution instant) the single task is `ACTIVE`, every non-`ACTIVE` task
holds zero bytes, and the reported usage equals the `ACTIVE` byte sum. -/
theorem sum_bytes_int_cast (l : List (String × CacheTask)) :
    (l.map (fun kt => (kt.2.usedBytes : Int))).sum =
      ((((l.map (fun kt => kt.2.usedBytes)).sum : Nat) : Int)) := by
  induction l with
  | nil => rfl
  | cons kt rest ih =>
      simp only [List.map_cons, List.sum_cons, ih]
      push_cast
      ring

/-- C2: whenever the sweeper's memory pass runs — after the expiration pass
the resident bytes exceed `maxMemoryBytes`, or `maxMemoryBytes` is 0 and
bytes are resident — it increments the eviction-trigger counter exactly
once and deletes a prefix of the score-ascending candidate list (statuses
`ACTIVE`/`FAILED` only, never `QUEUED` or `AWAIT`), stopping as soon as the
accumulated released bytes reach `usedMemoryBytes - minMemoryBytes`, after
which the resident usage is at most `minMemoryBytes`.  The hypotheses state
that the store's keys are duplicate-free, that the computed configuration
satisfies `minMemoryBytes ≤ maxMemoryBytes` (as `computeMemoryConfiguration`
guarantees), and that tasks that are not eviction candidates hold no bytes
(true at every macrotask boundary, since `usedBytes` is only set at
resolution). -/
theorem c2_flush_memory_pass (s : CacherState) (scoreFn : String × CacheTask → ℚ)
    (hnodup : (s.tasks.map (fun kt => kt.1)).Nodup)
    (hclean : s.cleanupExpiredTasks.shouldCleanupMemory = true)
    (hminmax : s.cfg.minMemoryBytes ≤ s.cfg.maxMemoryBytes)
    (hzero : ∀ kt ∈ s.tasks,
      kt.2.status s.cfg s.now ≠ .EXPIRED →
      kt.2.status s.cfg s.now ≠ .ACTIVE → kt.2.status s.cfg s.now ≠ .FAILED →
      kt.2.usedBytes = 0) :
    ∀ scored target n,
      scored = s.cleanupExpiredTasks.scoredCandidates scoreFn →
      target = s.cleanupExpiredTasks.flushTarget →
      n = evictLen scored target →
      (s.flush scoreFn).overMemoryLimitCount = s.overMemoryLimitCount + 1 ∧
      (s.flush scoreFn).tasks = s.cleanupExpiredTasks.tasks.filter (fun kt =>
        decide (kt.1 ∉ evictKeys scored target)) ∧
      evictKeys scored target = (scored.take n).map (fun kt => kt.1) ∧
      List.Pairwise (fun a b => scoreFn a ≤ scoreFn b) (scored.take n) ∧
      (∀ kv ∈ scored.take n,
        kv.2.status s.cfg s.now = .ACTIVE ∨ kv.2.status s.cfg s.now = .FAILED) ∧
      (target ≤ ((scored.take n).map (fun kt => (kt.2.usedBytes : Int))).sum ∨
        n = scored.length) ∧
      (∀ m < n, (((scored.take m).map (fun kt => (kt.2.usedBytes : Int))).sum < target)) ∧
      (s.flush scoreFn).usedMemoryBytes ≤ s.cfg.minMemoryBytes := by
  intro scored target n hscored htarget hn
  have hcfg1 : s.cleanupExpiredTasks.cfg = s.cfg := rfl
  have hnow1 : s.cleanupExpiredTasks.now = s.now := rfl
  have hnodup1 : (s.cleanupExpiredTasks.tasks.map (fun kt => kt.1)).Nodup :=
    List.Nodup.sublist (List.Sublist.map _ (List.filter_sublist _)) hnodup
  have hnodupA : (s.cleanupExpiredTasks.getActiveTasks.map (fun kt => kt.1)).Nodup :=
    List.Nodup.sublist (List.Sublist.map _ (List.filter_sublist _)) hnodup1
  have hperm : scored.Perm s.cleanupExpiredTasks.getActiveTasks := by
    rw [hscored]
    exact List.perm_insertionSort _ _
  have hscored_nodup : (scored.map (fun kt => kt.1)).Nodup :=
    ((hperm.map _).nodup_iff).mpr hnodupA
  have hmem_scored : ∀ kv ∈ scored,
      kv ∈ s.cleanupExpiredTasks.tasks ∧
        (kv.2.status s.cfg s.now = .ACTIVE ∨ kv.2.status s.cfg s.now = .FAILED) := by
    intro kv hkv
    have h1 : kv ∈ s.cleanupExpiredTasks.getActiveTasks := hperm.mem_iff.mp hkv
    have h2 := List.mem_filter.mp h1
    refine ⟨h2.1, ?_⟩
    have h3 := h2.2
    simp only [Bool.or_eq_true, beq_iff_eq] at h3
    exact h3
  have hmem_s : ∀ kv ∈ s.cleanupExpiredTasks.tasks, kv ∈ s.tasks := by
    intro kv hkv
    exact List.mem_of_mem_filter hkv
  have hflush : s.flush scoreFn =
      CacherState.flushMemory
        { s.cleanupExpiredTasks with
          overMemoryLimitCount := s.cleanupExpiredTasks.overMemoryLimitCount + 1 }
        scoreFn s.cleanupExpiredTasks.flushTarget := by
    unfold CacherState.flush
    rw [if_pos hclean]
  have hclean2 : s.cfg.maxMemoryBytes < s.cleanupExpiredTasks.usedMemoryBytes ∨
      (s.cfg.maxMemoryBytes = 0 ∧ 0 < s.cleanupExpiredTasks.usedMemoryBytes) := by
    have := hclean
    unfold CacherState.shouldCleanupMemory at this
    simp only [Bool.or_eq_true, Bool.and_eq_true, decide_eq_true_eq, beq_iff_eq] at this
    exact this
  have e1 : s.cleanupExpiredTasks.cfg.minMemoryBytes = s.cfg.minMemoryBytes := rfl
  have htargdef : target =
      (s.cleanupExpiredTasks.usedMemoryBytes : Int) - (s.cfg.minMemoryBytes : Int) := by
    rw [htarget]
    unfold CacherState.flushTarget
    rw [e1]
  have hpos : 0 < target := by
    rw [htargdef]
    rcases hclean2 with h | ⟨hmax0, hused⟩
    · omega
    · omega
  have hconj2 : (s.flush scoreFn).tasks =
      s.cleanupExpiredTasks.tasks.filter (fun kt =>
        decide (kt.1 ∉ evictKeys scored target)) := by
    rw [hflush, hscored, htarget]
    rfl
  have hconj3 : evictKeys scored target = (scored.take n).map (fun kt => kt.1) := by
    rw [hn]
    exact evictKeys_eq_take scored target
  have hvic_sub : ∀ kv ∈ scored.take n, kv ∈ s.cleanupExpiredTasks.tasks :=
    fun kv hkv => (hmem_scored kv (List.mem_of_mem_take hkv)).1
  have hvic_nodup : ((scored.take n).map (fun kt => kt.1)).Nodup :=
    List.Nodup.sublist (List.Sublist.map _ (List.take_sublist _ _)) hscored_nodup
  refine ⟨?_, hconj2, hconj3, ?_, ?_, ?_, ?_, ?_⟩
  · rw [hflush]
    rfl
  · haveI instTot : IsTotal (String × CacheTask) (fun a b => scoreFn a ≤ scoreFn b) :=
      ⟨fun a b => le_total _ _⟩
    haveI instTrans : IsTrans (String × CacheTask) (fun a b => scoreFn a ≤ scoreFn b) :=
      ⟨fun a b c hab hbc => le_trans hab hbc⟩
    have hsorted : List.Sorted (fun a b => scoreFn a ≤ scoreFn b) scored := by
      rw [hscored]
      exact List.sorted_insertionSort _ _
    exact List.Pairwise.sublist (List.take_sublist _ _) hsorted
  · exact fun kv hkv => (hmem_scored kv (List.mem_of_mem_take hkv)).2
  · rw [hn]
    exact evict_stop scored target
  · intro m hm
    rw [hn] at hm
    exact evict_minimal scored target hpos m hm
  · have husedAfter : (s.flush scoreFn).usedMemoryBytes =
        ((s.cleanupExpiredTasks.tasks.filter (fun kt =>
          decide (kt.1 ∉ evictKeys scored target))).map (fun kt => kt.2.usedBytes)).sum := by
      show ((s.flush scoreFn).tasks.map (fun kt => kt.2.usedBytes)).sum = _
      rw [hconj2]
    have hstop0 := evict_stop scored target
    rw [← hn] at hstop0
    rcases hstop0 with hstop | hall
    · -- the loop reached the target: released bytes ≥ target
      have hsplit := sum_bytes_filter_split s.cleanupExpiredTasks.tasks
        (evictKeys scored target)
      have hvic_sum : ((s.cleanupExpiredTasks.tasks.filter (fun kt =>
          decide (kt.1 ∈ evictKeys scored target))).map (fun kt => kt.2.usedBytes)).sum =
          ((scored.take n).map (fun kt => kt.2.usedBytes)).sum := by
        rw [hconj3]
        exact sum_bytes_filter_mem_keys _ _ hnodup1 hvic_nodup hvic_sub
      have hVle : ((s.cleanupExpiredTasks.usedMemoryBytes : Int) -
          (s.cfg.minMemoryBytes : Int)) ≤
          ((((scored.take n).map (fun kt => kt.2.usedBytes)).sum : Nat) : Int) := by
        rw [htargdef] at hstop
        exact le_trans hstop (le_of_eq (sum_bytes_int_cast (scored.take n)))
      rw [husedAfter]
      have hts : (s.cleanupExpiredTasks.tasks.map (fun kt => kt.2.usedBytes)).sum =
          s.cleanupExpiredTasks.usedMemoryBytes := rfl
      rw [hts] at hsplit
      omega
    · -- the loop exhausted every candidate: only zero-byte tasks remain
      rw [husedAfter]
      have hz : ∀ x ∈ (s.cleanupExpiredTasks.tasks.filter (fun kt =>
          decide (kt.1 ∉ evictKeys scored target))).map (fun kt => kt.2.usedBytes),
          x = 0 := by
        intro x hx
        obtain ⟨kt, hktmem, rfl⟩ := List.mem_map.mp hx
        have h1 := List.mem_filter.mp hktmem
        have hnotin : kt.1 ∉ evictKeys scored target := of_decide_eq_true h1.2
        by_cases hA : kt.2.status s.cfg s.now = .ACTIVE
        · exfalso
          apply hnotin
          rw [hconj3]
          have hcand : kt ∈ s.cleanupExpiredTasks.getActiveTasks := by
            have ecfg : s.cleanupExpiredTasks.cfg = s.cfg := rfl
            have enow : s.cleanupExpiredTasks.now = s.now := rfl
            rw [CacherState.getActiveTasks, List.mem_filter]
            exact ⟨h1.1, by simp [ecfg, enow, hA]⟩
          have hksc : kt ∈ scored := hperm.mem_iff.mpr hcand
          have : kt ∈ scored.take n := by
            rw [hall, List.take_length]
            exact hksc
          exact List.mem_map.mpr ⟨kt, this, rfl⟩
        · by_cases hF : kt.2.status s.cfg s.now = .FAILED
          · exfalso
            apply hnotin
            rw [hconj3]
            have hcand : kt ∈ s.cleanupExpiredTasks.getActiveTasks := by
              have ecfg : s.cleanupExpiredTasks.cfg = s.cfg := rfl
              have enow : s.cleanupExpiredTasks.now = s.now := rfl
              rw [CacherState.getActiveTasks, List.mem_filter]
              exact ⟨h1.1, by simp [ecfg, enow, hF]⟩
            have hksc : kt ∈ scored := hperm.mem_iff.mpr hcand
            have : kt ∈ scored.take n := by
              rw [hall, List.take_length]
              exact hksc
            exact List.mem_map.mpr ⟨kt, this, rfl⟩
          · have hmemf := List.mem_filter.mp h1.1
            have hnexp : kt.2.status s.cfg s.now ≠ .EXPIRED := by
              have h4 := hmemf.2
              simp only [bne_iff_ne, ne_eq] at h4
              exact h4
            exact hzero kt hmemf.1 hnexp hA hF
      rw [List.sum_eq_zero hz]
      exact Nat.zero_le _

theorem c2_flush_memory_pass_witness :
    (c2state.tasks.map (fun kt => kt.1)).Nodup ∧
    c2state.cleanupExpiredTasks.shouldCleanupMemory = true ∧
    c2state.cfg.minMemoryBytes ≤ c2state.cfg.maxMemoryBytes ∧
    ((c2state.flush c2score).overMemoryLimitCount =
        c2state.overMemoryLimitCount + 1 ∧
      (c2state.flush c2score).tasks =
        c2state.cleanupExpiredTasks.tasks.filter (fun kt =>
          decide (kt.1 ∉ evictKeys c2scored c2target)) ∧
      evictKeys c2scored c2target = (c2scored.take c2n).map (fun kt => kt.1) ∧
      List.Pairwise (fun a b => c2score a ≤ c2score b) (c2scored.take c2n) ∧
      (∀ kv ∈ c2scored.take c2n,
        kv.2.status c2state.cfg c2state.now = .ACTIVE ∨
          kv.2.status c2state.cfg c2state.now = .FAILED) ∧
      (c2target ≤
          ((c2scored.take c2n).map (fun kt => (kt.2.usedBytes : Int))).sum ∨
        c2n = c2scored.length) ∧
      (∀ m < c2n,
        (((c2scored.take m).map (fun kt => (kt.2.usedBytes : Int))).sum <
          c2target)) ∧
      (c2state.flush c2score).usedMemoryBytes ≤ c2state.cfg.minMemoryBytes) :=
  ⟨by decide, by decide, by decide,
    c2_flush_memory_pass c2state c2score (by decide) (by decide) (by decide)
      (by decide) c2scored c2target c2n rfl rfl rfl⟩

theorem c6_memory_metric_amended_witness :
    (((initState c6cfg 0).set "k" .undefinedArg).settleWith "k"
        (.ok (.vnum 7))).memoryCurrentUsageBytes =
      ((((initState c6cfg 0).set "k" .undefinedArg).settleWith "k"
        (.ok (.vnum 7))).tasks.map (fun kt => kt.2.usedBytes)).sum ∧
    (((initState c6cfg 0).set "k" .undefinedArg).settleWith "k"
        (.ok (.vnum 7))).memoryCurrentUsageBytes =
      (((initState c6cfg 0).set "k" .undefinedArg).settleWith "k"
        (.ok (.vnum 7))).activeUsedBytes :=
  c6_memory_metric_amended _ (by decide)

/-! Claim C4: the admission order of the scheduler. -/

/-- C4 (counterexample): the scheduler does not admit queued tasks oldest
creation first.  In a reachable run with one fetch slot, `a` (created at
t=0, used once) and `b` (created at t=500, used twice) are both queued;
when settling `h` frees the slot, the one consume call admits the
later-created `b` — its `order` 500 − 2·1000 = −1500 beats the −1000 of
`a` — while the earlier-created `a` remains queued. -/
theorem c4_admission_not_creation_fifo_counterexample :
    ReachG false c4cfg 0 c4state ∧
    (c4pre.findTask "a").map (fun t => t.status c4pre.cfg c4pre.now) =
      some .QUEUED ∧
    (c4pre.findTask "b").map (fun t => t.status c4pre.cfg c4pre.now) =
      some .QUEUED ∧
    c4state = c4pre.settleWith "h" (.ok (.vnum 1)) ∧
    (c4state.findTask "a").map (fun t =>
      (t.createdAt, t.status c4state.cfg c4state.now)) = some (0, .QUEUED) ∧
    (c4state.findTask "b").map (fun t =>
      (t.createdAt, t.status c4state.cfg c4state.now)) = some (500, .AWAIT) := by
  refine ⟨?_, by decide, by decide, rfl, by decide, by decide⟩
  have h1 : ReachG false c4cfg 0 (initState c4cfg 0) := ReachG.init
  have h2 := ReachG.step h1 (StepG.getOp _ "h" false)
  have h3 := ReachG.step h2 (StepG.getOp _ "a" false)
  have h4 := ReachG.step h3 (StepG.tick _ 500)
  have h5 := ReachG.step h4 (StepG.getOp _ "b" false)
  have h6 := ReachG.step h5 (StepG.getOp _ "b" false)
  exact ReachG.step h6 (StepG.settleOp _ "h"
    { taskId := 0, usedBytes := 0, usedCount := 1, createdAt := 0,
      lastAccessedAt := 0, resolvedAt := none, liberatedAt := some 0,
      taskError := none, fetchStarts := 1, slotOutcome := none }
    (.ok (.vnum 1)) (by decide) (by decide) (by decide) (Or.inl (by decide)))

/-- C4 (amended): in every consume call with a non-zero cap and a free
slot, the admitted tasks are exactly the first `availableSlots` entries of
the queued tasks sorted ascending by `order = createdAt − usedCount·1000`
(part_003 lines 39-41) — a use-count-dominated priority, not
creation-time-first with a tiebreak: every admitted task has `order` no
larger than every task left queued. -/
theorem c4_admission_by_order_amended (s : CacherState)
    (hq : s.queuedTasks.isEmpty = false)
    (hcap : s.cfg.concurrencyCap ≠ 0)
    (hslots : 0 < s.availableSlots) :
    s.queuedTasks.Perm (s.tasks.filter (fun kt =>
      kt.2.status s.cfg s.now == .QUEUED)) ∧
    List.Pairwise (fun a b => a.2.order ≤ b.2.order) s.queuedTasks ∧
    s.consume = { s with tasks := (runKeys s.tasks
      ((s.queuedTasks.take s.availableSlots.toNat).map (fun kt => kt.1)) s.now) } ∧
    (∀ a ∈ s.queuedTasks.take s.availableSlots.toNat,
      ∀ b ∈ s.queuedTasks.drop s.availableSlots.toNat,
        a.2.order ≤ b.2.order) := by
  haveI instTot : IsTotal (String × CacheTask) (fun a b => a.2.order ≤ b.2.order) :=
    ⟨fun a b => le_total _ _⟩
  haveI instTrans : IsTrans (String × CacheTask) (fun a b => a.2.order ≤ b.2.order) :=
    ⟨fun a b c hab hbc => le_trans hab hbc⟩
  have hsorted : List.Pairwise (fun a b => a.2.order ≤ b.2.order) s.queuedTasks :=
    List.sorted_insertionSort _ _
  refine ⟨List.perm_insertionSort _ _, hsorted, ?_, ?_⟩
  · rw [CacherState.consume, if_neg (by rw [hq]; exact Bool.false_ne_true),
      if_neg hcap, if_neg (not_le.mpr hslots)]
  · intro a ha b hb
    exact List.Sorted.rel_of_mem_take_of_mem_drop hsorted ha hb

theorem c4_admission_by_order_amended_witness :
    c4wstate.queuedTasks.isEmpty = false ∧
    c4wstate.cfg.concurrencyCap ≠ 0 ∧
    0 < c4wstate.availableSlots ∧
    (c4wstate.queuedTasks.Perm (c4wstate.tasks.filter (fun kt =>
      kt.2.status c4wstate.cfg c4wstate.now == .QUEUED)) ∧
    List.Pairwise (fun a b => a.2.order ≤ b.2.order) c4wstate.queuedTasks ∧
    c4wstate.consume = { c4wstate with tasks := (runKeys c4wstate.tasks
      ((c4wstate.queuedTasks.take c4wstate.availableSlots.toNat).map
        (fun kt => kt.1)) c4wstate.now) } ∧
    (∀ a ∈ c4wstate.queuedTasks.take c4wstate.availableSlots.toNat,
      ∀ b ∈ c4wstate.queuedTasks.drop c4wstate.availableSlots.toNat,
        a.2.order ≤ b.2.order)) :=
  ⟨by decide, by decide, by decide,
    c4_admission_by_order_amended c4wstate (by decide) (by decide) (by decide)⟩

/-! Claim C3: the concurrency cap.  The configuration never changes after
construction, and the `AWAIT` count of the restricted system (no `set` with
a pre-started value) stays within a positive cap. -/

theorem consume_cfg (s : CacherState) : s.consume.cfg = s.cfg := by
  obtain ⟨_, _, _, hcfg, _⟩ := consume_tasks_eq_runKeys s
  exact hcfg

theorem touch_cfg (s : CacherState) (k : String) : (s.touch k).cfg = s.cfg := rfl

theorem set_cfg (s : CacherState) (k : String) (arg : SetArg) :
    (s.set k arg).cfg = s.cfg := by
  unfold CacherState.set
  exact consume_cfg _

theorem getSync_cfg (s : CacherState) (k : String) (b : Bool) :
    (s.getSync k b).cfg = s.cfg := by
  unfold CacherState.getSync
  split
  · exact set_cfg s k _
  · split
    · split
      · exact set_cfg s k _
      · rfl
    · rfl

theorem get_cfg (s : CacherState) (k : String) (b : Bool) :
    (s.get k b).cfg = s.cfg := by
  unfold CacherState.get
  rw [touch_cfg, getSync_cfg]

theorem settleWith_cfg (s : CacherState) (k : String) (o : Outcome) :
    (s.settleWith k o).cfg = s.cfg := by
  unfold CacherState.settleWith
  exact consume_cfg _

theorem flush_cfg (s : CacherState) (scoreFn : String × CacheTask → ℚ) :
    (s.flush scoreFn).cfg = s.cfg := by
  unfold CacherState.flush
  split <;> rfl

theorem step_cfg {allow : Bool} {s s2 : CacherState} (h : StepG allow s s2) :
    s2.cfg = s.cfg := by
  cases h with
  | tick dt => rfl
  | getOp k b => exact get_cfg s k b
  | setOp k arg harg => exact set_cfg s k arg
  | deleteOp k => rfl
  | consumeOp => exact consume_cfg s
  | settleOp k t o hfind hlib hres hout => exact settleWith_cfg s k o
  | flushOp scoreFn => exact flush_cfg s scoreFn
  | clearOp => rfl

theorem reach_cfg {allow : Bool} {cfg : CacherConfig} {t0 : Nat} {s : CacherState}
    (h : ReachG allow cfg t0 s) : s.cfg = cfg := by
  induction h with
  | init => rfl
  | step hr hstep ih => rw [step_cfg hstep, ih]

/-- Expiration is monotone in the clock. -/
theorem isExpired_mono (cfg : CacherConfig) (t : CacheTask) (n dt : Nat)
    (h : t.isExpired cfg n = true) : t.isExpired cfg (n + dt) = true := by
  cases hr : t.resolvedAt with
  | none =>
      unfold CacheTask.isExpired at h ⊢
      rw [hr] at h ⊢
      simp only [Bool.or_eq_true, Bool.and_eq_true, decide_eq_true_eq] at h ⊢
      rcases h with ⟨hs, hlt⟩ | ⟨hs, hm⟩
      · exact Or.inl ⟨hs, lt_of_lt_of_le hlt
          (Nat.sub_le_sub_right (Nat.le_add_right n dt) _)⟩
      · simp at hm
  | some r =>
      unfold CacheTask.isExpired at h ⊢
      rw [hr] at h ⊢
      simp only [Bool.or_eq_true, Bool.and_eq_true, decide_eq_true_eq] at h ⊢
      rcases h with ⟨hs, hlt⟩ | ⟨hs, hm⟩
      · exact Or.inl ⟨hs, lt_of_lt_of_le hlt
          (Nat.sub_le_sub_right (Nat.le_add_right n dt) _)⟩
      · exact Or.inr ⟨hs, lt_of_lt_of_le hm
          (Nat.sub_le_sub_right (Nat.le_add_right n dt) _)⟩

/-- A task in `AWAIT` after a clock advance was already in `AWAIT`. -/
theorem status_await_tick (cfg : CacherConfig) (t : CacheTask) (n dt : Nat)
    (h : t.status cfg (n + dt) = .AWAIT) : t.status cfg n = .AWAIT := by
  unfold CacheTask.status at h ⊢
  by_cases h1 : (t.taskError.isSome && cfg.errorTaskPolicy != ErrorTaskPolicyType.CACHE) = true
  · rw [if_pos h1] at h
    exact absurd h (by decide)
  · rw [if_neg h1] at h ⊢
    by_cases h2 : t.isExpired cfg (n + dt) = true
    · rw [if_pos h2] at h
      exact absurd h (by decide)
    · rw [if_neg h2] at h
      have h2n : ¬ t.isExpired cfg n = true :=
        fun hx => h2 (isExpired_mono cfg t n dt hx)
      rw [if_neg h2n]
      exact h

/-- Inversion of `status = AWAIT`. -/
theorem status_await_inv (cfg : CacherConfig) (t : CacheTask) (now : Nat)
    (h : t.status cfg now = .AWAIT) :
    (t.taskError.isSome && cfg.errorTaskPolicy != ErrorTaskPolicyType.CACHE) = false ∧
    t.isExpired cfg now = false ∧ t.liberatedAt.isNone = false ∧
    t.resolvedAt.isSome = false := by
  unfold CacheTask.status at h
  split_ifs at h with h1 h2 h3 h4
  all_goals
    first
      | exact absurd h (by decide)
      | exact ⟨Bool.eq_false_iff.mpr h1, Bool.eq_false_iff.mpr h2,
          Bool.eq_false_iff.mpr h3, Bool.eq_false_iff.mpr h4⟩

/-- Introduction of `status = AWAIT`. -/
theorem status_await_intro (cfg : CacherConfig) (t : CacheTask) (now : Nat)
    (h1 : (t.taskError.isSome && cfg.errorTaskPolicy != ErrorTaskPolicyType.CACHE) = false)
    (h2 : t.isExpired cfg now = false) (h3 : t.liberatedAt.isNone = false)
    (h4 : t.resolvedAt.isSome = false) : t.status cfg now = .AWAIT := by
  unfold CacheTask.status
  rw [if_neg (by simp [h1]), if_neg (by simp [h2]), if_neg (by simp [h3]),
    if_neg (by simp [h4])]

/-- Advancing the clock never creates a running task. -/
theorem countAwait_tick_le (s : CacherState) (dt : Nat) :
    ({ s with now := s.now + dt } : CacherState).countAwait ≤ s.countAwait := by
  show List.countP (fun kt => kt.2.status s.cfg (s.now + dt) == .AWAIT) s.tasks ≤
    List.countP (fun kt => kt.2.status s.cfg s.now == .AWAIT) s.tasks
  refine List.countP_mono_left ?_
  intro kt hkt hp
  simp only [beq_iff_eq] at hp ⊢
  exact status_await_tick s.cfg kt.2 s.now dt hp

/-- A settled task record is never in `AWAIT`. -/
theorem status_settled_ne_await (cfg : CacherConfig) (o : Outcome) (now2 now : Nat)
    (t : CacheTask) : (settleTask o now2 t).status cfg now ≠ .AWAIT := by
  intro h
  have hres : (settleTask o now2 t).resolvedAt.isSome = false :=
    (status_await_inv cfg _ now h).2.2.2
  simp [settleTask] at hres

/-- `output()` bookkeeping on a non-`EXPIRED` task keeps its status out of
`AWAIT` unless it was there already. -/
theorem status_touch_await (cfg : CacherConfig) (t : CacheTask) (now : Nat)
    (hne : t.status cfg now ≠ .EXPIRED)
    (h : CacheTask.status cfg
      { t with usedCount := t.usedCount + 1, lastAccessedAt := now } now = .AWAIT) :
    t.status cfg now = .AWAIT := by
  obtain ⟨h1, h2, h3, h4⟩ := status_await_inv cfg _ now h
  have h1t : (t.taskError.isSome && cfg.errorTaskPolicy != ErrorTaskPolicyType.CACHE) = false := h1
  have h3t : t.liberatedAt.isNone = false := h3
  have h4t : t.resolvedAt.isSome = false := h4
  have h2t : t.isExpired cfg now = false := by
    cases hE : t.isExpired cfg now with
    | false => rfl
    | true =>
        exfalso
        apply hne
        unfold CacheTask.status
        rw [if_neg (by simp [h1t]), if_pos hE]
  exact status_await_intro cfg t now h1t h2t h3t h4t

/-- `touch` never increases the running count when every task stored under
the touched key is not `EXPIRED`. -/
theorem countAwait_touch_le (s : CacherState) (k : String)
    (hk : ∀ kt ∈ s.tasks, kt.1 = k → kt.2.status s.cfg s.now ≠ .EXPIRED) :
    (s.touch k).countAwait ≤ s.countAwait := by
  show List.countP _ (s.tasks.map _) ≤ List.countP _ s.tasks
  rw [List.countP_map]
  refine List.countP_mono_left ?_
  intro kt hkt hp
  simp only [Function.comp] at hp
  by_cases hkk : (kt.1 == k) = true
  · rw [if_pos hkk] at hp
    simp only [beq_iff_eq] at hp ⊢
    exact status_touch_await s.cfg kt.2 s.now (hk kt hkt (by simpa using hkk)) hp
  · rw [if_neg hkk] at hp
    exact hp

/-- Deleting an entry never increases the running count. -/
theorem countAwait_delete_le (s : CacherState) (k : String) :
    (s.deleteByCacheKey k).countAwait ≤ s.countAwait :=
  List.Sublist.countP_le _ (List.filter_sublist _)

/-- At most `|ks|` stored tasks carry a key of `ks` when keys are
duplicate-free. -/
theorem countP_key_mem_le (l : List (String × CacheTask)) (ks : List String)
    (hnodup : (l.map (fun kt => kt.1)).Nodup) :
    l.countP (fun kt => decide (kt.1 ∈ ks)) ≤ ks.length := by
  rw [List.countP_eq_length_filter]
  have h1 : (l.filter (fun kt => decide (kt.1 ∈ ks))).length =
      ((l.filter (fun kt => decide (kt.1 ∈ ks))).map (fun kt => kt.1)).length := by
    rw [List.length_map]
  rw [h1]
  have hnd : ((l.filter (fun kt => decide (kt.1 ∈ ks))).map (fun kt => kt.1)).Nodup :=
    List.Nodup.sublist (List.Sublist.map _ (List.filter_sublist _)) hnodup
  have hsub : ((l.filter (fun kt => decide (kt.1 ∈ ks))).map (fun kt => kt.1)) ⊆ ks := by
    intro x hx
    obtain ⟨kt, hktmem, rfl⟩ := List.mem_map.mp hx
    exact of_decide_eq_true (List.mem_filter.mp hktmem).2
  exact (hnd.subperm hsub).length_le

/-- A count of a disjunction is at most the sum of the counts. -/
theorem countP_or_le (l : List (String × CacheTask))
    (q1 q2 : String × CacheTask → Bool) :
    l.countP (fun kt => q1 kt || q2 kt) ≤ l.countP q1 + l.countP q2 := by
  induction l with
  | nil => simp
  | cons kt rest ih =>
      rw [List.countP_cons, List.countP_cons, List.countP_cons]
      by_cases h1 : q1 kt = true <;> by_cases h2 : q2 kt = true <;>
        simp [h1, h2] <;> omega

/-- Running the listed keys adds at most one running task per stored task
whose key is listed. -/
theorem countAwait_runKeys_le (l : List (String × CacheTask)) (ks : List String)
    (now : Nat) (cfg : CacherConfig) (now2 : Nat) :
    (runKeys l ks now).countP (fun kt => kt.2.status cfg now2 == .AWAIT) ≤
      l.countP (fun kt => kt.2.status cfg now2 == .AWAIT) +
      l.countP (fun kt => decide (kt.1 ∈ ks)) := by
  refine le_trans ?_ (countP_or_le l (fun kt => kt.2.status cfg now2 == .AWAIT)
    (fun kt => decide (kt.1 ∈ ks)))
  show List.countP _ (l.map _) ≤ _
  rw [List.countP_map]
  refine List.countP_mono_left ?_
  intro kt hkt hp
  simp only [Function.comp] at hp
  by_cases hk : kt.1 ∈ ks
  · simp [decide_eq_true hk]
  · rw [if_neg hk] at hp
    simp [hp]

/-- The scheduler keeps the running count within a positive cap. -/
theorem countAwait_consume_le (s : CacherState)
    (hnodup : (s.tasks.map (fun kt => kt.1)).Nodup)
    (hcap : 0 < s.cfg.concurrencyCap)
    (hle : s.countAwait ≤ s.cfg.concurrencyCap) :
    s.consume.countAwait ≤ s.cfg.concurrencyCap := by
  unfold CacherState.consume
  by_cases hq : s.queuedTasks.isEmpty = true
  · rw [if_pos hq]
    exact hle
  · rw [if_neg hq]
    have hcapne : ¬ s.cfg.concurrencyCap = 0 := Nat.pos_iff_ne_zero.mp hcap
    rw [if_neg hcapne]
    by_cases hs : s.availableSlots ≤ 0
    · rw [if_pos hs]
      exact hle
    · rw [if_neg hs]
      show List.countP (fun kt => kt.2.status s.cfg s.now == .AWAIT)
        (runKeys s.tasks
          ((s.queuedTasks.take s.availableSlots.toNat).map (fun kt => kt.1)) s.now) ≤
        s.cfg.concurrencyCap
      have h1 := countAwait_runKeys_le s.tasks
        ((s.queuedTasks.take s.availableSlots.toNat).map (fun kt => kt.1))
        s.now s.cfg s.now
      have h2 := countP_key_mem_le s.tasks
        ((s.queuedTasks.take s.availableSlots.toNat).map (fun kt => kt.1)) hnodup
      have h3 : ((s.queuedTasks.take s.availableSlots.toNat).map
          (fun kt => kt.1)).length ≤ s.availableSlots.toNat := by
        rw [List.length_map]
        exact List.length_take_le _ _
      have h4 : s.awaitedTasks.length = s.countAwait := by
        show (s.tasks.filter _).length = List.countP _ s.tasks
        rw [List.countP_eq_length_filter]
      have h5 : s.availableSlots =
          (s.cfg.concurrencyCap : Int) - (s.awaitedTasks.length : Int) := rfl
      have h6 : s.countAwait =
          List.countP (fun kt => kt.2.status s.cfg s.now == .AWAIT) s.tasks := rfl
      omega

/-- `run` always leaves the holder liberated. -/
theorem run_liberated (t : CacheTask) (now : Nat) :
    (t.run now).liberatedAt.isSome = true := by
  unfold CacheTask.run
  by_cases h : t.liberatedAt.isSome = true
  · rw [if_pos h]
    exact h
  · rw [if_neg h]
    rfl

/-- Membership in a post-`consume` task map comes from a stored task, run
or not. -/
theorem mem_consume_tasks (s : CacherState) (kt : String × CacheTask)
    (h : kt ∈ s.consume.tasks) :
    ∃ kt0 ∈ s.tasks, kt.1 = kt0.1 ∧ (kt.2 = kt0.2 ∨ kt.2 = kt0.2.run s.now) := by
  obtain ⟨ks, htasks, -⟩ := consume_tasks_eq_runKeys s
  rw [htasks] at h
  obtain ⟨kt0, hkt0, heq⟩ := List.mem_map.mp h
  by_cases hk : kt0.1 ∈ ks
  · rw [if_pos hk] at heq
    exact ⟨kt0, hkt0, by rw [← heq], Or.inr (by rw [← heq])⟩
  · rw [if_neg hk] at heq
    exact ⟨kt0, hkt0, by rw [heq], Or.inl (by rw [heq])⟩

theorem set_now (s : CacherState) (k : String) (arg : SetArg) :
    (s.set k arg).now = s.now := by
  show (CacherState.consume { s.deleteByCacheKey k with
      tasks := (s.deleteByCacheKey k).tasks ++ [(k, mkCacheTask s.nextId s.now arg)],
      nextId := s.nextId + 1 }).now = s.now
  obtain ⟨_, _, hnow, -⟩ := consume_tasks_eq_runKeys _
  exact hnow

/-- The task stored under the key of a fresh `set` is the new record,
possibly already run by the scheduler. -/
theorem mem_set_key (s : CacherState) (k : String) (arg : SetArg) :
    ∀ kt ∈ (s.set k arg).tasks, kt.1 = k →
      kt.2 = mkCacheTask s.nextId s.now arg ∨
      kt.2 = (mkCacheTask s.nextId s.now arg).run s.now := by
  intro kt hkt hk1
  have hkt2 : kt ∈ (CacherState.consume { s.deleteByCacheKey k with
      tasks := (s.deleteByCacheKey k).tasks ++ [(k, mkCacheTask s.nextId s.now arg)],
      nextId := s.nextId + 1 }).tasks := hkt
  obtain ⟨kt0, hkt0, hkey, hval⟩ := mem_consume_tasks _ kt hkt2
  rcases List.mem_append.mp hkt0 with hin | hin
  · exfalso
    have hne := (List.mem_filter.mp hin).2
    rw [← hkey, hk1] at hne
    simp at hne
  · simp only [List.mem_singleton] at hin
    subst hin
    exact hval

/-- The fresh task of a `set` with an absent value, once run, is `AWAIT`. -/
theorem mkCacheTask_run_status (cfg : CacherConfig) (id now : Nat) :
    ((mkCacheTask id now .undefinedArg).run now).status cfg now = .AWAIT := by
  cases hstrat : cfg.expirationStrategy <;>
    simp [mkCacheTask, CacheTask.run, CacheTask.status, CacheTask.isExpired,
      looseNeqUndefined, SetArg.isErrorInstance, hstrat]

/-- A `set` with an absent value keeps the running count within a positive
cap. -/
theorem countAwait_set_le (s : CacherState) (k : String) (arg : SetArg)
    (habs : arg.isAbsent = true)
    (hnodup : (s.tasks.map (fun kt => kt.1)).Nodup)
    (hcap : 0 < s.cfg.concurrencyCap)
    (hle : s.countAwait ≤ s.cfg.concurrencyCap) :
    (s.set k arg).countAwait ≤ s.cfg.concurrencyCap := by
  have hset : s.set k arg = CacherState.consume { s.deleteByCacheKey k with
      tasks := (s.deleteByCacheKey k).tasks ++ [(k, mkCacheTask s.nextId s.now arg)],
      nextId := s.nextId + 1 } := rfl
  rw [hset]
  refine countAwait_consume_le _ ?_ hcap ?_
  · show (((s.deleteByCacheKey k).tasks ++
      [(k, mkCacheTask s.nextId s.now arg)]).map (fun kt => kt.1)).Nodup
    simp only [List.map_append]
    rw [List.nodup_append]
    refine ⟨List.Nodup.sublist (List.Sublist.map _ (List.filter_sublist _)) hnodup,
      by simp, ?_⟩
    intro a ha hb
    simp only [List.mem_map] at ha hb
    obtain ⟨kt, hkt, rfl⟩ := ha
    obtain ⟨kt2, hkt2, heq⟩ := hb
    simp only [List.mem_singleton] at hkt2
    subst hkt2
    have hkk : k = kt.1 := heq
    have hne := List.of_mem_filter hkt
    rw [← hkk] at hne
    simp at hne
  · show List.countP (fun kt => kt.2.status s.cfg s.now == .AWAIT)
      ((s.deleteByCacheKey k).tasks ++ [(k, mkCacheTask s.nextId s.now arg)]) ≤
      s.cfg.concurrencyCap
    rw [List.countP_append]
    have hq : (mkCacheTask s.nextId s.now arg).status s.cfg s.now = .QUEUED :=
      mkCacheTask_absent_status s.cfg _ _ arg habs
    have hsingle : List.countP (fun kt => kt.2.status s.cfg s.now == .AWAIT)
        [(k, mkCacheTask s.nextId s.now arg)] = 0 := by
      simp [List.countP_cons, hq]
    have hdel : List.countP (fun kt => kt.2.status s.cfg s.now == .AWAIT)
        (s.deleteByCacheKey k).tasks ≤
        List.countP (fun kt => kt.2.status s.cfg s.now == .AWAIT) s.tasks :=
      countAwait_delete_le s k
    have h6 : s.countAwait =
        List.countP (fun kt => kt.2.status s.cfg s.now == .AWAIT) s.tasks := rfl
    omega

/-- A `set` with an absent value followed by the `output()` bookkeeping of
`get` keeps the running count within a positive cap. -/
theorem countAwait_set_touch_le (s : CacherState) (k : String)
    (hnodup : (s.tasks.map (fun kt => kt.1)).Nodup)
    (hcap : 0 < s.cfg.concurrencyCap)
    (hle : s.countAwait ≤ s.cfg.concurrencyCap) :
    ((s.set k .undefinedArg).touch k).countAwait ≤ s.cfg.concurrencyCap := by
  refine le_trans (countAwait_touch_le (s.set k .undefinedArg) k ?_)
    (countAwait_set_le s k .undefinedArg rfl hnodup hcap hle)
  intro kt hkt hk1
  have hcfg2 : (s.set k .undefinedArg).cfg = s.cfg := set_cfg s k _
  have hnow2 : (s.set k .undefinedArg).now = s.now := set_now s k _
  rw [hcfg2, hnow2]
  rcases mem_set_key s k .undefinedArg kt hkt hk1 with h | h <;> rw [h]
  · rw [mkCacheTask_absent_status s.cfg s.nextId s.now .undefinedArg rfl]
    simp
  · rw [mkCacheTask_run_status]
    simp

/-- A `get` keeps the running count within a positive cap. -/
theorem countAwait_get_le (s : CacherState) (k : String) (b : Bool)
    (hg : GoodState s) (hcap : 0 < s.cfg.concurrencyCap)
    (hle : s.countAwait ≤ s.cfg.concurrencyCap) :
    (s.get k b).countAwait ≤ s.cfg.concurrencyCap := by
  unfold CacherState.get CacherState.getSync
  by_cases hb : (b || (s.findTask k).isNone) = true
  · rw [if_pos hb]
    exact countAwait_set_touch_le s k hg.1 hcap hle
  · rw [if_neg hb]
    have hbf : (b || (s.findTask k).isNone) = false := Bool.eq_false_iff.mpr hb
    cases hft : s.findTask k with
    | none =>
        rw [hft] at hbf
        simp at hbf
    | some t =>
        show ((if t.status s.cfg s.now == .EXPIRED then s.set k .undefinedArg
          else s).touch k).countAwait ≤ _
        by_cases hexp : (t.status s.cfg s.now == .EXPIRED) = true
        · rw [if_pos hexp]
          exact countAwait_set_touch_le s k hg.1 hcap hle
        · rw [if_neg hexp]
          refine le_trans (countAwait_touch_le s k ?_) hle
          intro kt hkt hk1
          have hf2 : findInTasks s.tasks k = some kt.2 := by
            rw [← hk1]
            exact findInTasks_of_mem_nodup s.tasks kt.1 kt.2 hg.1 hkt
          have hf3 : findInTasks s.tasks k = some t := hft
          rw [hf2] at hf3
          rw [Option.some_inj.mp hf3]
          simpa using hexp

/-- Settling a task keeps the running count within a positive cap. -/
theorem countAwait_settle_le (s : CacherState) (k : String) (o : Outcome)
    (hnodup : (s.tasks.map (fun kt => kt.1)).Nodup)
    (hcap : 0 < s.cfg.concurrencyCap)
    (hle : s.countAwait ≤ s.cfg.concurrencyCap) :
    (s.settleWith k o).countAwait ≤ s.cfg.concurrencyCap := by
  have hY : s.settleWith k o = CacherState.consume { s with
      tasks := s.tasks.map (fun kt =>
        if kt.1 == k then (kt.1, settleTask o s.now kt.2) else kt) } := rfl
  rw [hY]
  refine countAwait_consume_le _ ?_ hcap ?_
  · show ((s.tasks.map (fun kt =>
      if kt.1 == k then (kt.1, settleTask o s.now kt.2) else kt)).map
        (fun kt => kt.1)).Nodup
    rw [List.map_map]
    have hcong : s.tasks.map ((fun kt => kt.1) ∘ (fun kt =>
        if kt.1 == k then (kt.1, settleTask o s.now kt.2) else kt)) =
        s.tasks.map (fun kt => kt.1) := by
      refine List.map_congr_left ?_
      intro kt hkt
      by_cases hk : (kt.1 == k) = true
      · simp [Function.comp, hk]
      · simp [Function.comp, hk]
    rw [hcong]
    exact hnodup
  · show List.countP (fun kt => kt.2.status s.cfg s.now == .AWAIT)
      (s.tasks.map (fun kt =>
        if kt.1 == k then (kt.1, settleTask o s.now kt.2) else kt)) ≤
      s.cfg.concurrencyCap
    refine le_trans ?_ hle
    rw [List.countP_map]
    refine List.countP_mono_left ?_
    intro kt hkt hp
    simp only [Function.comp] at hp
    by_cases hk : (kt.1 == k) = true
    · rw [if_pos hk] at hp
      exact absurd (by simpa using hp) (status_settled_ne_await s.cfg o s.now s.now kt.2)
    · rw [if_neg hk] at hp
      exact hp

/-- The sweeper never increases the running count. -/
theorem countAwait_flush_le (s : CacherState) (scoreFn : String × CacheTask → ℚ) :
    (s.flush scoreFn).countAwait ≤ s.countAwait := by
  unfold CacherState.flush
  split
  · show List.countP _ (List.filter _ (List.filter _ s.tasks)) ≤
      List.countP _ s.tasks
    exact List.Sublist.countP_le _ ((List.filter_sublist _).trans (List.filter_sublist _))
  · show List.countP _ (List.filter _ s.tasks) ≤ List.countP _ s.tasks
    exact List.Sublist.countP_le _ (List.filter_sublist _)

/-- In the restricted system (every `set` passes an absent value, so no task
is born pre-started), the running count never exceeds a positive cap. -/
theorem reach_countAwait_le {cfg : CacherConfig} {t0 : Nat} {s : CacherState}
    (h : ReachG false cfg t0 s) (hcap : 0 < cfg.concurrencyCap) :
    s.countAwait ≤ cfg.concurrencyCap := by
  induction h with
  | init => simp [initState, CacherState.countAwait]
  | step hr hstep ih =>
      have hg := reach_good hr
      have hcfg := reach_cfg hr
      rw [← hcfg] at hcap ih ⊢
      cases hstep with
      | tick dt => exact le_trans (countAwait_tick_le _ dt) ih
      | getOp k b => exact countAwait_get_le _ k b hg hcap ih
      | setOp k arg harg =>
          rcases harg with habs | hfalse
          · exact countAwait_set_le _ k arg habs hg.1 hcap ih
          · exact absurd hfalse (by decide)
      | deleteOp k => exact le_trans (countAwait_delete_le _ k) ih
      | consumeOp => exact countAwait_consume_le _ hg.1 hcap ih
      | settleOp k t o hfind hlib hres hout =>
          exact countAwait_settle_le _ k o hg.1 hcap ih
      | flushOp scoreFn => exact le_trans (countAwait_flush_le _ scoreFn) ih
      | clearOp => simp [CacherState.clear, CacherState.countAwait]

/-- C3 (counterexample): the running-count cap is not an invariant of the
full interface.  `set(key, pendingPromise)` resolves the new task's holder
with the still-pending promise inside the constructor, so the task is born
`AWAIT` without passing through `consume`: two such sets against a cacher
with concurrency 1 yield a reachable state with 2 tasks in `AWAIT`. -/
theorem c3_running_cap_counterexample :
    ReachG true c3cfg 0 c3state ∧
    c3cfg.concurrencyCap = 1 ∧
    c3state.countAwait = 2 := by
  refine ⟨?_, by decide, by decide⟩
  exact ReachG.step
    (ReachG.step ReachG.init (StepG.setOp _ "p" .promiseArg (Or.inr rfl)))
    (StepG.setOp _ "q" .promiseArg (Or.inr rfl))

/-- C3 (amended): restricted to the fetch-driven interface (`get`, `set`
with an absent value, deletes, settles, sweeps), every reachable state has
at most `concurrencyCap` tasks in `AWAIT` when the cap is positive; a
non-positive configured concurrency normalises to cap 0, and with cap 0
`consume` runs every queued task immediately (its holder is liberated at
once). -/
theorem c3_running_cap_amended (cfg : CacherConfig) (t0 : Nat) :
    (∀ s : CacherState, ReachG false cfg t0 s → 0 < cfg.concurrencyCap →
      s.countAwait ≤ cfg.concurrencyCap) ∧
    (∀ cfg2 : CacherConfig, cfg2.concurrency ≤ 0 → cfg2.concurrencyCap = 0) ∧
    (∀ (s : CacherState) (t : CacheTask) (k : String),
      s.cfg.concurrencyCap = 0 → s.findTask k = some t →
      t.status s.cfg s.now = .QUEUED →
      s.consume.findTask k = some (t.run s.now) ∧
      (t.run s.now).liberatedAt.isSome = true) := by
  refine ⟨fun s h hcap => reach_countAwait_le h hcap, ?_, ?_⟩
  · intro cfg2 hle
    unfold CacherConfig.concurrencyCap
    by_cases h : cfg2.concurrency < 0
    · rw [if_pos h]
    · rw [if_neg h]
      have h0 : cfg2.concurrency = 0 := le_antisymm hle (not_lt.mp h)
      rw [h0]
      rfl
  · intro s t k hcap hfind hstat
    exact ⟨consume_runs_queued_of_cap_zero s t hcap k hfind hstat,
      run_liberated t s.now⟩

theorem c3_running_cap_amended_witness :
    (ReachG false c3cfg 0 c3gstate ∧ 0 < c3cfg.concurrencyCap ∧
      c3gstate.countAwait ≤ c3cfg.concurrencyCap) ∧
    (c3negcfg.concurrency ≤ 0 ∧ c3negcfg.concurrencyCap = 0) ∧
    (c3qstate.cfg.concurrencyCap = 0 ∧
      c3qstate.findTask "q" = some (mkCacheTask 0 0 .undefinedArg) ∧
      (mkCacheTask 0 0 .undefinedArg).status c3qstate.cfg c3qstate.now = .QUEUED ∧
      c3qstate.consume.findTask "q" =
        some ((mkCacheTask 0 0 .undefinedArg).run c3qstate.now) ∧
      ((mkCacheTask 0 0 .undefinedArg).run c3qstate.now).liberatedAt.isSome = true) := by
  have hreach : ReachG false c3cfg 0 c3gstate :=
    ReachG.step ReachG.init (StepG.getOp _ "a" false)
  refine ⟨⟨hreach, by decide,
      (c3_running_cap_amended c3cfg 0).1 c3gstate hreach (by decide)⟩,
    ⟨by decide, (c3_running_cap_amended c3cfg 0).2.1 c3negcfg (by decide)⟩,
    ⟨by decide, by decide, by decide, ?_, ?_⟩⟩
  · exact ((c3_running_cap_amended c3cfg 0).2.2 c3qstate _ "q"
      (by decide) (by decide) (by decide)).1
  · exact ((c3_running_cap_amended c3cfg 0).2.2 c3qstate _ "q"
      (by decide) (by decide) (by decide)).2

/-! Claim C1: single flight per fingerprint. -/

/-- The constructor stamps the given ghost identity on the new record. -/
theorem mkCacheTask_taskId (id now : Nat) (arg : SetArg) :
    (mkCacheTask id now arg).taskId = id := by
  unfold mkCacheTask
  cases arg <;> simp [SetArg.isErrorInstance, looseNeqUndefined]

/-- `getSync` without force on a stored non-expired key leaves the state
untouched. -/
theorem getSync_id (s : CacherState) (k : String) (t : CacheTask)
    (hfind : s.findTask k = some t)
    (hstat : t.status s.cfg s.now ≠ .EXPIRED) :
    s.getSync k false = s := by
  unfold CacherState.getSync
  have hnone : (s.findTask k).isNone = false := by
    rw [hfind]
    rfl
  rw [if_neg (by simp [hnone]), hfind]
  show (if t.status s.cfg s.now == .EXPIRED then s.set k .undefinedArg else s) = s
  rw [if_neg (by simpa using hstat)]

/-- The possible shapes of a `getSync` result. -/
theorem getSync_cases (s : CacherState) (k2 : String) (b : Bool) :
    s.getSync k2 b = s ∨ s.getSync k2 b = s.set k2 .undefinedArg := by
  unfold CacherState.getSync
  by_cases hb : (b || (s.findTask k2).isNone) = true
  · rw [if_pos hb]
    exact Or.inr rfl
  · rw [if_neg hb]
    cases hf2 : s.findTask k2 with
    | none => exact Or.inl rfl
    | some tt =>
        by_cases hexp : (tt.status s.cfg s.now == .EXPIRED) = true
        · refine Or.inr ?_
          show (if (tt.status s.cfg s.now == .EXPIRED) = true
            then s.set k2 .undefinedArg else s) = s.set k2 .undefinedArg
          rw [if_pos hexp]
        · refine Or.inl ?_
          show (if (tt.status s.cfg s.now == .EXPIRED) = true
            then s.set k2 .undefinedArg else s) = s
          rw [if_neg hexp]

/-- `consume` preserves every stored task's identity and slot outcome. -/
theorem findTask_consume_pair (s : CacherState) (k : String) :
    (s.consume.findTask k).map (fun u => (u.taskId, u.slotOutcome)) =
      (s.findTask k).map (fun u => (u.taskId, u.slotOutcome)) := by
  obtain ⟨b, hb⟩ := findTask_consume_map s k
  rw [hb]
  cases hf : s.findTask k with
  | none => rfl
  | some t => cases b <;> simp [run_preserves_slotOutcome, run_preserves_taskId]

/-- `touch` preserves every stored task's identity and slot outcome. -/
theorem findTask_touch_pair (s : CacherState) (k2 k : String) :
    ((s.touch k2).findTask k).map (fun u => (u.taskId, u.slotOutcome)) =
      (s.findTask k).map (fun u => (u.taskId, u.slotOutcome)) := by
  have hmk := findInTasks_mapKey s.tasks k2 k
    (fun u => { u with usedCount := u.usedCount + 1, lastAccessedAt := s.now })
  show (findInTasks (s.tasks.map (fun kt => if kt.1 == k2 then
    (kt.1, { kt.2 with usedCount := kt.2.usedCount + 1, lastAccessedAt := s.now })
    else kt)) k).map (fun u => (u.taskId, u.slotOutcome)) =
    (findInTasks s.tasks k).map (fun u => (u.taskId, u.slotOutcome))
  rw [hmk]
  by_cases h : k = k2
  · rw [if_pos h]
    cases hf : findInTasks s.tasks k with
    | none => rfl
    | some t => rfl
  · rw [if_neg h]

/-- The exact record stored after a `touch`. -/
theorem findTask_touch (s : CacherState) (k2 k : String) :
    (s.touch k2).findTask k =
      if k = k2 then (s.findTask k).map (fun u =>
        { u with usedCount := u.usedCount + 1, lastAccessedAt := s.now })
      else s.findTask k := by
  have hmk := findInTasks_mapKey s.tasks k2 k
    (fun u => { u with usedCount := u.usedCount + 1, lastAccessedAt := s.now })
  show findInTasks (s.tasks.map (fun kt => if kt.1 == k2 then
    (kt.1, { kt.2 with usedCount := kt.2.usedCount + 1, lastAccessedAt := s.now })
    else kt)) k = _
  rw [hmk]
  rfl

theorem findTask_delete (s : CacherState) (k2 k : String) :
    (s.deleteByCacheKey k2).findTask k =
      if k = k2 then none else s.findTask k := by
  show findInTasks (s.tasks.filter _) k = _
  exact findInTasks_filter_key_ne s.tasks k2 k

/-- A `set` either installs a brand-new record (fresh ghost identity) under
its key or leaves the other keys' identities and outcomes unchanged. -/
theorem findTask_set_pair (s : CacherState) (k2 : String) (arg : SetArg) (k : String) :
    ((s.set k2 arg).findTask k).map (fun u => (u.taskId, u.slotOutcome)) =
      if k = k2 then
        some (s.nextId, (mkCacheTask s.nextId s.now arg).slotOutcome)
      else (s.findTask k).map (fun u => (u.taskId, u.slotOutcome)) := by
  have hset : s.set k2 arg = CacherState.consume { s.deleteByCacheKey k2 with
      tasks := (s.deleteByCacheKey k2).tasks ++ [(k2, mkCacheTask s.nextId s.now arg)],
      nextId := s.nextId + 1 } := rfl
  rw [hset, findTask_consume_pair]
  show (findInTasks ((s.deleteByCacheKey k2).tasks ++
    [(k2, mkCacheTask s.nextId s.now arg)]) k).map _ = _
  rw [findInTasks_append]
  have hdel : findInTasks (s.deleteByCacheKey k2).tasks k =
      if k = k2 then none else findInTasks s.tasks k := findTask_delete s k2 k
  by_cases h : k = k2
  · rw [if_pos h] at hdel
    rw [hdel, if_pos h, findInTasks_cons, if_pos h.symm]
    show some ((mkCacheTask s.nextId s.now arg).taskId,
      (mkCacheTask s.nextId s.now arg).slotOutcome) = _
    rw [mkCacheTask_taskId]
  · rw [if_neg h] at hdel
    rw [hdel, if_neg h, findInTasks_cons, if_neg (fun he => h he.symm), findInTasks_nil]
    show ((findInTasks s.tasks k).or none).map (fun u => (u.taskId, u.slotOutcome)) =
      (findInTasks s.tasks k).map (fun u => (u.taskId, u.slotOutcome))
    cases hf : findInTasks s.tasks k <;> rfl

/-- Settling key `k2` writes its slot outcome and leaves every other key's
identity and outcome unchanged. -/
theorem findTask_settleWith_pair (s : CacherState) (k2 : String) (o2 : Outcome)
    (k : String) :
    ((s.settleWith k2 o2).findTask k).map (fun u => (u.taskId, u.slotOutcome)) =
      if k = k2 then (s.findTask k).map (fun u => (u.taskId, some o2))
      else (s.findTask k).map (fun u => (u.taskId, u.slotOutcome)) := by
  have hY : s.settleWith k2 o2 = CacherState.consume { s with
      tasks := s.tasks.map (fun kt =>
        if kt.1 == k2 then (kt.1, settleTask o2 s.now kt.2) else kt) } := rfl
  rw [hY, findTask_consume_pair]
  show (findInTasks (s.tasks.map _) k).map _ = _
  rw [findInTasks_mapKey]
  by_cases h : k = k2
  · rw [if_pos h, if_pos h]
    show (Option.map (settleTask o2 s.now) (findInTasks s.tasks k)).map
      (fun u => (u.taskId, u.slotOutcome)) =
      (findInTasks s.tasks k).map (fun u => (u.taskId, some o2))
    cases hf : findInTasks s.tasks k <;> rfl
  · rw [if_neg h, if_neg h]
    show (findInTasks s.tasks k).map (fun u => (u.taskId, u.slotOutcome)) =
      (findInTasks s.tasks k).map (fun u => (u.taskId, u.slotOutcome))
    rfl

theorem flush_tasks_sublist (s : CacherState) (scoreFn : String × CacheTask → ℚ) :
    List.Sublist (s.flush scoreFn).tasks s.tasks := by
  unfold CacherState.flush
  split
  · show List.Sublist (List.filter _ (List.filter _ s.tasks)) s.tasks
    exact (List.filter_sublist _).trans (List.filter_sublist _)
  · show List.Sublist (List.filter _ s.tasks) s.tasks
    exact List.filter_sublist _

/-- C1: single flight and a shared outcome per fingerprint.  (a) A `get`
without force on a stored non-expired key performs only the `output()`
bookkeeping: the map keeps the same task record (same ghost identity, same
fetch count, same holder, same slot) with `usedCount` bumped — no new task,
no second fetch.  (b) `CacheTask.run` on an already-started slot is a
no-op.  (c) At every reachable state every stored task has invoked the
user fetch at most once.  (d) A recorded slot outcome is write-once: any
step that keeps the same task (same key and ghost identity) keeps its
outcome, so every awaiter of that slot settles with the same outcome. -/
theorem c1_single_flight (cfg : CacherConfig) (t0 : Nat) :
    (∀ (s : CacherState) (k : String) (t : CacheTask),
      s.findTask k = some t → t.status s.cfg s.now ≠ .EXPIRED →
      s.get k false = s.touch k ∧
      (s.get k false).findTask k =
        some { t with usedCount := t.usedCount + 1, lastAccessedAt := s.now }) ∧
    (∀ (t : CacheTask) (now : Nat),
      t.liberatedAt.isSome = true → t.run now = t) ∧
    (∀ s : CacherState, ReachG true cfg t0 s →
      ∀ kt ∈ s.tasks, kt.2.fetchStarts ≤ 1) ∧
    (∀ (allow : Bool) (s s2 : CacherState) (k : String) (t t2 : CacheTask) (o : Outcome),
      GoodState s → StepG allow s s2 →
      s.findTask k = some t → t.slotOutcome = some o →
      s2.findTask k = some t2 → t2.taskId = t.taskId →
      t2.slotOutcome = some o) := by
  refine ⟨?_, fun t now h => run_of_liberated t now h, ?_, ?_⟩
  · intro s k t hfind hstat
    have hid : s.getSync k false = s := getSync_id s k t hfind hstat
    constructor
    · show (s.getSync k false).touch k = s.touch k
      rw [hid]
    · show ((s.getSync k false).touch k).findTask k = _
      rw [hid, findTask_touch s k k, if_pos rfl, hfind]
      rfl
  · intro s h kt hm
    exact ((reach_good h).2 kt hm).2.1
  · intro allow s s2 k t t2 o hg hstep hfind hout hfind2 hid
    cases hstep with
    | tick dt =>
        have h2 : s.findTask k = some t2 := hfind2
        rw [hfind] at h2
        rw [← Option.some_inj.mp h2]
        exact hout
    | getOp k2 b =>
        have hp := findTask_touch_pair (s.getSync k2 b) k2 k
        have hfind2t : ((s.getSync k2 b).touch k2).findTask k = some t2 := hfind2
        rw [hfind2t] at hp
        rcases getSync_cases s k2 b with hgs | hgs <;> rw [hgs] at hp
        · rw [hfind] at hp
          have h2 := Option.some_inj.mp hp
          have h3 : t2.slotOutcome = t.slotOutcome := congrArg Prod.snd h2
          rw [h3]
          exact hout
        · rw [findTask_set_pair] at hp
          by_cases h : k = k2
          · rw [if_pos h] at hp
            have h2 := Option.some_inj.mp hp
            have hidnew : t2.taskId = s.nextId := congrArg Prod.fst h2
            have hmem : (k, t) ∈ s.tasks := mem_of_findInTasks s.tasks k t hfind
            have hlt : t.taskId < s.nextId := (hg.2 (k, t) hmem).1
            rw [hid] at hidnew
            omega
          · rw [if_neg h, hfind] at hp
            have h2 := Option.some_inj.mp hp
            have h3 : t2.slotOutcome = t.slotOutcome := congrArg Prod.snd h2
            rw [h3]
            exact hout
    | setOp k2 arg harg =>
        have hp := findTask_set_pair s k2 arg k
        rw [hfind2] at hp
        by_cases h : k = k2
        · rw [if_pos h] at hp
          have h2 := Option.some_inj.mp hp
          have hidnew : t2.taskId = s.nextId := congrArg Prod.fst h2
          have hmem : (k, t) ∈ s.tasks := mem_of_findInTasks s.tasks k t hfind
          have hlt : t.taskId < s.nextId := (hg.2 (k, t) hmem).1
          rw [hid] at hidnew
          omega
        · rw [if_neg h, hfind] at hp
          have h2 := Option.some_inj.mp hp
          have h3 : t2.slotOutcome = t.slotOutcome := congrArg Prod.snd h2
          rw [h3]
          exact hout
    | deleteOp k2 =>
        have hp := findTask_delete s k2 k
        rw [hfind2] at hp
        by_cases h : k = k2
        · rw [if_pos h] at hp
          exact absurd hp (by simp)
        · rw [if_neg h, hfind] at hp
          rw [Option.some_inj.mp hp]
          exact hout
    | consumeOp =>
        have hp := findTask_consume_pair s k
        rw [hfind2, hfind] at hp
        have h2 := Option.some_inj.mp hp
        have h3 : t2.slotOutcome = t.slotOutcome := congrArg Prod.snd h2
        rw [h3]
        exact hout
    | settleOp k2 t' o2 hfind' hlib' hres' hout' =>
        have hp := findTask_settleWith_pair s k2 o2 k
        rw [hfind2] at hp
        by_cases h : k = k2
        · rw [if_pos h, hfind] at hp
          have h2 := Option.some_inj.mp hp
          have h3 : t2.slotOutcome = some o2 := congrArg Prod.snd h2
          have ht' : t' = t := by
            rw [h] at hfind
            rw [hfind] at hfind'
            exact (Option.some_inj.mp hfind').symm
          rcases hout' with hn | ho
          · rw [ht', hout] at hn
            exact absurd hn (by simp)
          · rw [ht', hout] at ho
            rw [h3, ← Option.some_inj.mp ho]
        · rw [if_neg h, hfind] at hp
          have h2 := Option.some_inj.mp hp
          have h3 : t2.slotOutcome = t.slotOutcome := congrArg Prod.snd h2
          rw [h3]
          exact hout
    | flushOp scoreFn =>
        have hmem2 : (k, t2) ∈ (s.flush scoreFn).tasks :=
          mem_of_findInTasks _ _ _ hfind2
        have hmem : (k, t2) ∈ s.tasks :=
          (flush_tasks_sublist s scoreFn).subset hmem2
        have hf2 : findInTasks s.tasks k = some t2 :=
          findInTasks_of_mem_nodup s.tasks k t2 hg.1 hmem
        have hf : findInTasks s.tasks k = some t := hfind
        rw [hf] at hf2
        rw [← Option.some_inj.mp hf2]
        exact hout
    | clearOp =>
        have h2 : findInTasks [] k = some t2 := hfind2
        rw [findInTasks_nil] at h2
        exact absurd h2 (by simp)

theorem c1_single_flight_witness :
    (c3gstate.findTask "a" = some c1task ∧
      c1task.status c3gstate.cfg c3gstate.now ≠ .EXPIRED ∧
      c3gstate.get "a" false = c3gstate.touch "a" ∧
      (c3gstate.get "a" false).findTask "a" =
        some { c1task with usedCount := c1task.usedCount + 1, lastAccessedAt := c3gstate.now }) ∧
    (c1task.liberatedAt.isSome = true ∧ c1task.run 999 = c1task) ∧
    (("a", c1task) ∈ c3gstate.tasks ∧ c1task.fetchStarts ≤ 1) ∧
    (c2state.findTask "k" = some c1stask ∧
      ({ c2state with now := c2state.now + 5 } : CacherState).findTask "k" =
        some c1stask ∧
      c1stask.slotOutcome = some (.ok (.vnum 7))) := by
  have hreach3 : ReachG true c3cfg 0 c3gstate :=
    ReachG.step ReachG.init (StepG.getOp _ "a" false)
  have hreach2 : ReachG true c2cfg 0 c2state :=
    ReachG.step (ReachG.step ReachG.init (StepG.setOp _ "k" .undefinedArg (Or.inl rfl)))
      (StepG.settleOp _ "k" ((mkCacheTask 0 0 .undefinedArg).run 0) (.ok (.vnum 7))
        (by decide) (by decide) (by decide) (Or.inl (by decide)))
  have hpair := (c1_single_flight c3cfg 0).1 c3gstate "a" c1task (by decide) (by decide)
  refine ⟨⟨by decide, by decide, hpair.1, hpair.2⟩,
    ⟨by decide, (c1_single_flight c3cfg 0).2.1 c1task 999 (by decide)⟩,
    ⟨by decide, (c1_single_flight c3cfg 0).2.2.1 c3gstate hreach3 ("a", c1task) (by decide)⟩,
    ⟨by decide, by decide, ?_⟩⟩
  exact (c1_single_flight c3cfg 0).2.2.2 true c2state _ "k" c1stask c1stask
    (.ok (.vnum 7)) (reach_good hreach2) (StepG.tick _ 5)
    (by decide) (by decide) (by decide) rfl

/-! Claim C9: the size estimator. -/

/-- The fuel-indexed sample walk equals the walk over `take`. -/
theorem jsizeofTake_eq (elems : List SVal) : ∀ (n : Nat) (used : List SVal)
    (depth : Nat) (opts : SizeofOptions),
    jsizeofTake n elems used depth opts =
      jsizeofList (elems.take n) used depth opts := by
  induction elems with
  | nil =>
      intro n used depth opts
      cases n <;> rfl
  | cons e rest ih =>
      intro n used depth opts
      cases n with
      | zero => rfl
      | succ n =>
          rw [List.take_succ_cons]
          show ((jsizeof e used depth opts).1 +
              (jsizeofTake n rest (jsizeof e used depth opts).2 depth opts).1,
              (jsizeofTake n rest (jsizeof e used depth opts).2 depth opts).2) =
            ((jsizeof e used depth opts).1 +
              (jsizeofList (rest.take n) (jsizeof e used depth opts).2 depth opts).1,
              (jsizeofList (rest.take n) (jsizeof e used depth opts).2 depth opts).2)
          rw [ih]

/-- `sizeof` on a string that passes the three guards. -/
theorem jsizeof_str (s : String) (used : List SVal) (depth : Nat)
    (opts : SizeofOptions) (h1 : ¬ depth > opts.maxDepth)
    (h2 : ¬ used.length > opts.maxKeyLimit) (h3 : SVal.jstr s ∉ used) :
    jsizeof (.jstr s) used depth opts =
      ((s.length * 2 : ℚ), used ++ [SVal.jstr s]) := by
  unfold jsizeof
  rw [if_neg h1, if_neg h2, if_neg h3]

/-- `sizeof` on a boolean that passes the three guards. -/
theorem jsizeof_bool (b : Bool) (used : List SVal) (depth : Nat)
    (opts : SizeofOptions) (h1 : ¬ depth > opts.maxDepth)
    (h2 : ¬ used.length > opts.maxKeyLimit) (h3 : SVal.jbool b ∉ used) :
    jsizeof (.jbool b) used depth opts = (4, used ++ [SVal.jbool b]) := by
  unfold jsizeof
  rw [if_neg h1, if_neg h2, if_neg h3]

/-- `sizeof` on a number that passes the three guards. -/
theorem jsizeof_num (n : Int) (used : List SVal) (depth : Nat)
    (opts : SizeofOptions) (h1 : ¬ depth > opts.maxDepth)
    (h2 : ¬ used.length > opts.maxKeyLimit) (h3 : SVal.jnum n ∉ used) :
    jsizeof (.jnum n) used depth opts = (8, used ++ [SVal.jnum n]) := by
  unfold jsizeof
  rw [if_neg h1, if_neg h2, if_neg h3]

/-- `sizeof` on a large array that passes the three guards: the sampling
branch, with the sample walked at depth `1 + (1 + depth)`. -/
theorem jsizeof_arr_big (elems used : List SVal) (depth : Nat)
    (opts : SizeofOptions) (h50 : 50 ≤ elems.length)
    (h1 : ¬ depth > opts.maxDepth) (h2 : ¬ used.length > opts.maxKeyLimit)
    (h3 : SVal.jarr elems ∉ used) :
    jsizeof (.jarr elems) used depth opts =
      ((jsizeofTake 50 elems (used ++ [SVal.jarr elems]) (1 + (1 + depth)) opts).1
          / 100 * elems.length,
        (jsizeofTake 50 elems (used ++ [SVal.jarr elems]) (1 + (1 + depth)) opts).2) := by
  unfold jsizeof
  rw [if_neg h1, if_neg h2, if_neg h3]
  show (if elems.length ≥ 50 then _ else _) = _
  rw [if_pos h50]

/-- The inlined array branch of `jsizeof` is the `sizeOfArray` function of
the source, called at depth `1 + depth`. -/
theorem jsizeof_arr_eq_sizeOfArray (elems used : List SVal) (depth : Nat)
    (opts : SizeofOptions) (h1 : ¬ depth > opts.maxDepth)
    (h2 : ¬ used.length > opts.maxKeyLimit) (h3 : SVal.jarr elems ∉ used) :
    jsizeof (.jarr elems) used depth opts =
      jsizeOfArray elems (used ++ [SVal.jarr elems]) (1 + depth) opts := by
  unfold jsizeof jsizeOfArray
  rw [if_neg h1, if_neg h2, if_neg h3]

/-- Walking `n` pairwise-distinct fresh numbers sums to `8·n`. -/
theorem jsizeofTake_nums (l : List Int) : ∀ (n : Nat) (used : List SVal)
    (depth : Nat) (opts : SizeofOptions),
    l.Nodup → (∀ i ∈ l, SVal.jnum i ∉ used) →
    ¬ depth > opts.maxDepth → used.length + n ≤ opts.maxKeyLimit →
    n ≤ l.length →
    (jsizeofTake n (l.map SVal.jnum) used depth opts).1 = 8 * n := by
  induction l with
  | nil =>
      intro n used depth opts _ _ _ _ hn
      have hz : n = 0 := Nat.le_zero.mp hn
      subst hz
      simp [jsizeofTake]
  | cons i rest ih =>
      intro n used depth opts hnodup hnotin hdepth hlimit hn
      cases n with
      | zero => simp [jsizeofTake]
      | succ n =>
          have hsz : jsizeof (SVal.jnum i) used depth opts =
              (8, used ++ [SVal.jnum i]) :=
            jsizeof_num i used depth opts hdepth (by omega)
              (hnotin i (List.mem_cons_self i rest))
          show ((jsizeof (SVal.jnum i) used depth opts).1 +
              (jsizeofTake n (rest.map SVal.jnum)
                (jsizeof (SVal.jnum i) used depth opts).2 depth opts).1) = _
          rw [hsz]
          have hrec := ih n (used ++ [SVal.jnum i]) depth opts
            (List.nodup_cons.mp hnodup).2
            (by
              intro j hj hmem
              rcases List.mem_append.mp hmem with hm1 | hm1
              · exact hnotin j (List.mem_cons_of_mem _ hj) hm1
              · simp only [List.mem_singleton, SVal.jnum.injEq] at hm1
                exact (List.nodup_cons.mp hnodup).1 (hm1 ▸ hj))
            hdepth (by simp; omega)
            (by
              have := hn
              simp only [List.length_cons] at this
              omega)
          show (8 : ℚ) + (jsizeofTake n (rest.map SVal.jnum)
            (used ++ [SVal.jnum i]) depth opts).1 = _
          rw [hrec]
          push_cast
          ring

/-- C9 (counterexample): for the 50-element array of the distinct numbers
0..49 the estimator returns 200 bytes — the 400-byte sample sum divided by
**100** and scaled by the length — not the 400 bytes of the claim's
`sample / 50 × length` formula. -/
theorem c9_array_divisor_counterexample :
    (jsizeofTake 50 c9arr [SVal.jarr c9arr] 2 defaultSizeofOptions).1 = 400 ∧
    (jsizeof (.jarr c9arr) [] 0 defaultSizeofOptions).1 = 200 ∧
    sizeofArraySpecFormula
      ((jsizeofTake 50 c9arr [SVal.jarr c9arr] 2 defaultSizeofOptions).1)
      c9arr.length = 400 ∧
    (jsizeof (.jarr c9arr) [] 0 defaultSizeofOptions).1 ≠
      sizeofArraySpecFormula
        ((jsizeofTake 50 c9arr [SVal.jarr c9arr] 2 defaultSizeofOptions).1)
        c9arr.length := by
  have harr : c9arr = (List.map (fun i => Int.ofNat i) (List.range 50)).map SVal.jnum := by
    unfold c9arr
    rw [List.map_map]
    rfl
  have hlen : c9arr.length = 50 := by decide
  have hsum : ∀ used : List SVal,
      (∀ i ∈ List.map (fun i => Int.ofNat i) (List.range 50), SVal.jnum i ∉ used) →
      used.length + 50 ≤ 1000 →
      (jsizeofTake 50 c9arr used 2 defaultSizeofOptions).1 = 400 := by
    intro used hnotin hlen2
    rw [harr]
    have h := jsizeofTake_nums (List.map (fun i => Int.ofNat i) (List.range 50)) 50
      used 2 defaultSizeofOptions
      (List.Nodup.map (fun a b hab => Int.ofNat.inj hab) (List.nodup_range 50))
      hnotin
      (by norm_num [defaultSizeofOptions])
      (by simpa [defaultSizeofOptions] using hlen2)
      (by simp)
    rw [h]
    norm_num
  have hsum1 : (jsizeofTake 50 c9arr [SVal.jarr c9arr] 2 defaultSizeofOptions).1 = 400 :=
    hsum [SVal.jarr c9arr] (by intro j hj hmem; simp at hmem) (by simp)
  have hmain : (jsizeof (.jarr c9arr) [] 0 defaultSizeofOptions).1 = 200 := by
    have h := jsizeof_arr_big c9arr [] 0 defaultSizeofOptions
      (by rw [hlen]) (by norm_num [defaultSizeofOptions])
      (by norm_num [defaultSizeofOptions]) (by simp)
    rw [h]
    show (jsizeofTake 50 c9arr [SVal.jarr c9arr] 2 defaultSizeofOptions).1
      / 100 * c9arr.length = 200
    rw [hsum1, hlen]
    norm_num
  refine ⟨hsum1, hmain, ?_, ?_⟩
  · rw [hsum1, hlen]
    unfold sizeofArraySpecFormula
    norm_num
  · rw [hsum1, hmain, hlen]
    unfold sizeofArraySpecFormula
    norm_num

/-- C9 (amended): for an array with at least 50 elements (that passes the
depth, visited-count and revisit guards) the estimator returns the sum of
the sizes of the first 50 elements — walked at depth `2 + depth`, two
levels deeper — divided by **100**, not by the sample size 50, and then
scaled by the length; the per-primitive byte counts of the claim (2 per
string character, 4 per boolean, 8 per number) are as stated. -/
theorem c9_sizeof_sampling_amended :
    (∀ (elems used : List SVal) (depth : Nat) (opts : SizeofOptions),
      50 ≤ elems.length → ¬ depth > opts.maxDepth →
      ¬ used.length > opts.maxKeyLimit → SVal.jarr elems ∉ used →
      jsizeof (.jarr elems) used depth opts =
        ((jsizeofList (elems.take 50) (used ++ [SVal.jarr elems]) (2 + depth) opts).1
            / 100 * elems.length,
          (jsizeofList (elems.take 50) (used ++ [SVal.jarr elems]) (2 + depth) opts).2) ∧
      jsizeof (.jarr elems) used depth opts =
        jsizeOfArray elems (used ++ [SVal.jarr elems]) (1 + depth) opts) ∧
    (∀ (s : String) (used : List SVal) (depth : Nat) (opts : SizeofOptions),
      ¬ depth > opts.maxDepth → ¬ used.length > opts.maxKeyLimit →
      SVal.jstr s ∉ used →
      jsizeof (.jstr s) used depth opts =
        ((s.length * 2 : ℚ), used ++ [SVal.jstr s])) ∧
    (∀ (b : Bool) (used : List SVal) (depth : Nat) (opts : SizeofOptions),
      ¬ depth > opts.maxDepth → ¬ used.length > opts.maxKeyLimit →
      SVal.jbool b ∉ used →
      jsizeof (.jbool b) used depth opts = (4, used ++ [SVal.jbool b])) ∧
    (∀ (n : Int) (used : List SVal) (depth : Nat) (opts : SizeofOptions),
      ¬ depth > opts.maxDepth → ¬ used.length > opts.maxKeyLimit →
      SVal.jnum n ∉ used →
      jsizeof (.jnum n) used depth opts = (8, used ++ [SVal.jnum n])) := by
  refine ⟨?_, jsizeof_str, jsizeof_bool, jsizeof_num⟩
  intro elems used depth opts h50 h1 h2 h3
  refine ⟨?_, jsizeof_arr_eq_sizeOfArray elems used depth opts h1 h2 h3⟩
  rw [jsizeof_arr_big elems used depth opts h50 h1 h2 h3, jsizeofTake_eq]
  have hd : 1 + (1 + depth) = 2 + depth := by omega
  rw [hd]

theorem c9_sizeof_sampling_amended_witness :
    (50 ≤ c9arr.length ∧ ¬ (0 : Nat) > defaultSizeofOptions.maxDepth ∧
      ¬ ([] : List SVal).length > defaultSizeofOptions.maxKeyLimit ∧
      SVal.jarr c9arr ∉ ([] : List SVal) ∧
      (jsizeof (.jarr c9arr) [] 0 defaultSizeofOptions =
        ((jsizeofList (c9arr.take 50) ([] ++ [SVal.jarr c9arr]) (2 + 0)
            defaultSizeofOptions).1 / 100 * c9arr.length,
          (jsizeofList (c9arr.take 50) ([] ++ [SVal.jarr c9arr]) (2 + 0)
            defaultSizeofOptions).2) ∧
        jsizeof (.jarr c9arr) [] 0 defaultSizeofOptions =
          jsizeOfArray c9arr ([] ++ [SVal.jarr c9arr]) (1 + 0)
            defaultSizeofOptions)) ∧
    jsizeof (.jstr "ab") [] 0 defaultSizeofOptions =
      ((("ab".length * 2 : Nat) : ℚ), [SVal.jstr "ab"]) ∧
    jsizeof (.jbool true) [] 0 defaultSizeofOptions = (4, [SVal.jbool true]) ∧
    jsizeof (.jnum 3) [] 0 defaultSizeofOptions = (8, [SVal.jnum 3]) := by
  have h50 : 50 ≤ c9arr.length := by decide
  refine ⟨⟨h50, by decide, by decide, by simp [c9arr], ?_⟩, ?_, ?_, ?_⟩
  · exact (c9_sizeof_sampling_amended.1 c9arr [] 0 defaultSizeofOptions h50
      (by decide) (by decide) (by simp [c9arr]))
  · have h := c9_sizeof_sampling_amended.2.1 "ab" [] 0 defaultSizeofOptions
      (by decide) (by decide) (by simp)
    rw [h]
    norm_num
  · exact c9_sizeof_sampling_amended.2.2.1 true [] 0 defaultSizeofOptions
      (by decide) (by decide) (by simp)
  · exact c9_sizeof_sampling_amended.2.2.2 3 [] 0 defaultSizeofOptions
      (by decide) (by decide) (by simp)

/-! Claim C7: the default fingerprinter. -/

theorem charListLe_total : ∀ (as bs : List Char),
    charListLe as bs = true ∨ charListLe bs as = true := by
  intro as
  induction as with
  | nil => intro bs; exact Or.inl rfl
  | cons a as2 ih =>
      intro bs
      cases bs with
      | nil => exact Or.inr rfl
      | cons b bs2 =>
          simp only [charListLe]
          by_cases hab : a.toNat < b.toNat
          · left
            rw [if_pos hab]
          · by_cases hba : b.toNat < a.toNat
            · right
              rw [if_pos hba]
            · rw [if_neg hab, if_neg hba, if_neg hba, if_neg hab]
              exact ih bs2

theorem charListLe_trans : ∀ (as bs cs : List Char),
    charListLe as bs = true → charListLe bs cs = true →
    charListLe as cs = true := by
  intro as
  induction as with
  | nil => intro bs cs h1 h2; rfl
  | cons a as2 ih =>
      intro bs cs h1 h2
      cases bs with
      | nil => simp [charListLe] at h1
      | cons b bs2 =>
          cases cs with
          | nil => simp [charListLe] at h2
          | cons c cs2 =>
              simp only [charListLe] at h1 h2 ⊢
              by_cases hab : a.toNat < b.toNat
              · rw [if_pos hab] at h1
                by_cases hbc : b.toNat < c.toNat
                · rw [if_pos (by omega)]
                · rw [if_neg hbc] at h2
                  by_cases hcb : c.toNat < b.toNat
                  · rw [if_pos hcb] at h2
                    exact absurd h2 (by simp)
                  · rw [if_pos (by omega)]
              · rw [if_neg hab] at h1
                by_cases hba : b.toNat < a.toNat
                · rw [if_pos hba] at h1
                  exact absurd h1 (by simp)
                · rw [if_neg hba] at h1
                  by_cases hbc : b.toNat < c.toNat
                  · rw [if_pos hbc] at h2
                    rw [if_pos (by omega)]
                  · rw [if_neg hbc] at h2
                    by_cases hcb : c.toNat < b.toNat
                    · rw [if_pos hcb] at h2
                      exact absurd h2 (by simp)
                    · rw [if_neg hcb] at h2
                      rw [if_neg (by omega), if_neg (by omega)]
                      exact ih bs2 cs2 h1 h2

theorem strLe_total (a b : String) : strLe a b = true ∨ strLe b a = true :=
  charListLe_total a.data b.data

theorem strLe_trans (a b c : String) (h1 : strLe a b = true)
    (h2 : strLe b c = true) : strLe a c = true :=
  charListLe_trans a.data b.data c.data h1 h2

theorem fsize_lt_of_mem_fields {kv : String × FVal} :
    ∀ {l : List (String × FVal)}, kv ∈ l → fsize kv.2 < fsizeF l + 1 := by
  intro l
  induction l with
  | nil => intro h; simp at h
  | cons kv0 rest ih =>
      intro h
      rcases List.mem_cons.mp h with h1 | h1
      · subst h1
        simp only [fsizeF]
        omega
      · have := ih h1
        simp only [fsizeF]
        omega

theorem fsize_lt_of_mem_list {v : FVal} :
    ∀ {l : List FVal}, v ∈ l → fsize v < fsizeL l + 1 := by
  intro l
  induction l with
  | nil => intro h; simp at h
  | cons v0 rest ih =>
      intro h
      rcases List.mem_cons.mp h with h1 | h1
      · subst h1
        simp only [fsizeL]
        omega
      · have := ih h1
        simp only [fsizeL]
        omega

theorem canonList_eq_map : ∀ l : List FVal, canonList l = l.map canon := by
  intro l
  induction l with
  | nil => rfl
  | cons v rest ih => simp only [canonList, List.map_cons, ih]

theorem canonFields_eq_map : ∀ l : List (String × FVal),
    canonFields l = l.map (fun kv => (kv.1, canon kv.2)) := by
  intro l
  induction l with
  | nil => rfl
  | cons kv rest ih => simp only [canonFields, List.map_cons, ih]

theorem canon_isUndef (v : FVal) : (canon v).isUndef = v.isUndef := by
  cases v <;> rfl

theorem orderedInsert_mapSnd (g : String × FVal → String × FVal)
    (hg : ∀ kv, (g kv).1 = kv.1) (a : String × FVal) :
    ∀ l : List (String × FVal),
    List.orderedInsert (fun x y => strLe x.1 y.1 = true) (g a) (l.map g) =
      (List.orderedInsert (fun x y => strLe x.1 y.1 = true) a l).map g := by
  intro l
  induction l with
  | nil => rfl
  | cons b rest ih =>
      rw [List.map_cons]
      simp only [List.orderedInsert]
      by_cases h : strLe a.1 b.1 = true
      · rw [if_pos (by rw [hg, hg]; exact h), if_pos h]
        rfl
      · rw [if_neg (by rw [hg, hg]; exact h), if_neg h, List.map_cons, ih]

theorem insertionSort_mapSnd (g : String × FVal → String × FVal)
    (hg : ∀ kv, (g kv).1 = kv.1) :
    ∀ l : List (String × FVal),
    (l.map g).insertionSort (fun x y => strLe x.1 y.1 = true) =
      (l.insertionSort (fun x y => strLe x.1 y.1 = true)).map g := by
  intro l
  induction l with
  | nil => rfl
  | cons a rest ih =>
      rw [List.map_cons]
      simp only [List.insertionSort]
      rw [ih, orderedInsert_mapSnd g hg]

theorem filter_canonFields (l : List (String × FVal)) :
    (canonFields l).filter (fun kv => ! kv.2.isUndef) =
      canonFields (l.filter (fun kv => ! kv.2.isUndef)) := by
  rw [canonFields_eq_map, canonFields_eq_map, List.filter_map]
  congr 1
  apply List.filter_congr
  intro kv _
  simp [Function.comp, canon_isUndef]

theorem renderFields_map_canon : ∀ (l : List (String × FVal)),
    (∀ kv ∈ l, ∀ depth2 : Nat,
      objectToSortedString (canon kv.2) depth2 = objectToSortedString kv.2 depth2) →
    ∀ depth : Nat,
    renderFields (l.map (fun kv => (kv.1, canon kv.2))) depth =
      renderFields l depth := by
  intro l
  induction l with
  | nil => intro _ _; rfl
  | cons kv rest ih =>
      intro h depth
      rw [List.map_cons]
      simp only [renderFields]
      rw [h kv (List.mem_cons_self kv rest) depth,
        ih (fun u hu => h u (List.mem_cons_of_mem kv hu)) depth]

theorem renderList_map_canon : ∀ (l : List FVal),
    (∀ v ∈ l, ∀ depth2 : Nat,
      objectToSortedString (canon v) depth2 = objectToSortedString v depth2) →
    ∀ depth : Nat,
    renderList (l.map canon) depth = renderList l depth := by
  intro l
  induction l with
  | nil => intro _ _; rfl
  | cons v rest ih =>
      intro h depth
      rw [List.map_cons]
      simp only [renderList]
      rw [h v (List.mem_cons_self v rest) depth,
        ih (fun u hu => h u (List.mem_cons_of_mem v hu)) depth]

/-- The canonical string is invariant under the claim's canonical form:
re-rendering after dropping absent entries and sorting keys changes
nothing, because the renderer does the same itself. -/
theorem render_canon_aux : ∀ (n : Nat) (v : FVal), fsize v ≤ n →
    ∀ depth : Nat,
    objectToSortedString (canon v) depth = objectToSortedString v depth := by
  intro n
  induction n with
  | zero =>
      intro v hv
      exfalso
      cases v <;> simp [fsize, fsizeL, fsizeF] at hv
  | succ n ih =>
      intro v hv depth
      match v with
      | .fnull => rfl
      | .fundef => rfl
      | .fbool b => rfl
      | .fnum m => rfl
      | .fstr s => rfl
      | .farr elems =>
          show objectToSortedString (.farr (canonList elems)) depth = _
          by_cases hd : depth > 10
          · simp only [objectToSortedString]
            rw [if_pos hd, if_pos hd]
          · simp only [objectToSortedString]
            rw [if_neg hd, if_neg hd]
            rw [canonList_eq_map, renderList_map_canon]
            intro u hu depth2
            refine ih u ?_ depth2
            have h1 := fsize_lt_of_mem_list hu
            have h2 : fsize (.farr elems) = fsizeL elems + 1 := rfl
            omega
      | .fobj fields =>
          show objectToSortedString (.fobj (((canonFields fields).filter
            (fun kv => ! kv.2.isUndef)).insertionSort
              (fun a b => strLe a.1 b.1 = true))) depth = _
          by_cases hd : depth > 10
          · simp only [objectToSortedString]
            rw [if_pos hd, if_pos hd]
          · simp only [objectToSortedString]
            rw [if_neg hd, if_neg hd]
            have hih : ∀ kv ∈ (fields.filter
                (fun kv => ! kv.2.isUndef)).insertionSort
                  (fun a b => strLe a.1 b.1 = true), ∀ depth2 : Nat,
                objectToSortedString (canon kv.2) depth2 =
                  objectToSortedString kv.2 depth2 := by
              intro kv hkv depth2
              have hmem : kv ∈ fields :=
                List.mem_of_mem_filter ((List.mem_insertionSort _).mp hkv)
              refine ih kv.2 ?_ depth2
              have h1 := fsize_lt_of_mem_fields hmem
              have h2 : fsize (.fobj fields) = fsizeF fields + 1 := rfl
              omega
            have hX : ((canonFields fields).filter
                (fun kv => ! kv.2.isUndef)).insertionSort
                  (fun a b => strLe a.1 b.1 = true) =
                ((fields.filter (fun kv => ! kv.2.isUndef)).insertionSort
                  (fun a b => strLe a.1 b.1 = true)).map
                    (fun kv => (kv.1, canon kv.2)) := by
              rw [filter_canonFields, canonFields_eq_map,
                insertionSort_mapSnd (fun kv => (kv.1, canon kv.2)) (fun kv => rfl)]
            rw [hX]
            haveI instTot : IsTotal (String × FVal)
                (fun x y => strLe x.1 y.1 = true) :=
              ⟨fun a b => strLe_total a.1 b.1⟩
            haveI instTrans : IsTrans (String × FVal)
                (fun x y => strLe x.1 y.1 = true) :=
              ⟨fun a b c => strLe_trans a.1 b.1 c.1⟩
            have hS : List.Sorted (fun x y => strLe x.1 y.1 = true)
                ((fields.filter (fun kv => ! kv.2.isUndef)).insertionSort
                  (fun a b => strLe a.1 b.1 = true)) :=
              List.sorted_insertionSort _ _
            have hfil : ((((fields.filter (fun kv => ! kv.2.isUndef)).insertionSort
                (fun a b => strLe a.1 b.1 = true)).map
                  (fun kv => (kv.1, canon kv.2))).filter
                    (fun kv => ! kv.2.isUndef)) =
                (((fields.filter (fun kv => ! kv.2.isUndef)).insertionSort
                  (fun a b => strLe a.1 b.1 = true)).map
                    (fun kv => (kv.1, canon kv.2))) := by
              rw [List.filter_eq_self]
              intro kv hkv
              obtain ⟨kv0, hkv0, rfl⟩ := List.mem_map.mp hkv
              have hmem0 : kv0 ∈ fields.filter (fun kv => ! kv.2.isUndef) :=
                (List.mem_insertionSort _).mp hkv0
              have hp := List.of_mem_filter hmem0
              show (! (canon kv0.2).isUndef) = true
              rw [canon_isUndef]
              exact hp
            have hsorted2 : List.Sorted (fun x y => strLe x.1 y.1 = true)
                (((fields.filter (fun kv => ! kv.2.isUndef)).insertionSort
                  (fun a b => strLe a.1 b.1 = true)).map
                    (fun kv => (kv.1, canon kv.2))) := by
              refine List.Pairwise.map _ ?_ hS
              intro a b hab
              exact hab
            rw [hfil, insertionSort_mapSnd (fun kv => (kv.1, canon kv.2)) (fun kv => rfl),
              List.Sorted.insertionSort_eq hS]
            rw [renderFields_map_canon _ hih]

/-- C7: the default fingerprinter is deterministic modulo key order and
absent entries.  (a) Inputs with the same canonical form (arrays kept in
order, object entries with `undefined` values dropped and the rest sorted
by key, recursively) produce the same md5 fingerprint, because (b) the
canonical string itself is invariant under canonicalisation.  (c) Element
order in arrays is significant: reordering a two-element array changes the
canonical string.  (d) Nesting deeper than 10 levels throws
`Object depth exceeds 10 levels`. -/
theorem c7_fingerprinter_canonical (md5 : String → String) :
    (∀ a b : FVal, canon a = canon b →
      cacheKeyTransformFn md5 a = cacheKeyTransformFn md5 b) ∧
    (∀ (v : FVal) (depth : Nat),
      objectToSortedString (canon v) depth = objectToSortedString v depth) ∧
    objectToSortedString (.farr [.fstr "a", .fstr "b"]) 0 ≠
      objectToSortedString (.farr [.fstr "b", .fstr "a"]) 0 ∧
    (∀ (v : FVal) (depth : Nat), depth > 10 →
      objectToSortedString v depth = .error "Object depth exceeds 10 levels") := by
  have hmain : ∀ (v : FVal) (depth : Nat),
      objectToSortedString (canon v) depth = objectToSortedString v depth :=
    fun v depth => render_canon_aux (fsize v) v (Nat.le_refl _) depth
  refine ⟨?_, hmain, ?_, ?_⟩
  · intro a b hab
    unfold cacheKeyTransformFn
    rw [← hmain a 0, ← hmain b 0, hab]
  · intro h
    have h1 : objectToSortedString (.farr [.fstr "a", .fstr "b"]) 0 =
        .ok "[a,b]" := by
      simp [objectToSortedString, renderList, Except.bind, Except.map,
        String.intercalate]
      rfl
    have h2 : objectToSortedString (.farr [.fstr "b", .fstr "a"]) 0 =
        .ok "[b,a]" := by
      simp [objectToSortedString, renderList, Except.bind, Except.map,
        String.intercalate]
      rfl
    rw [h1, h2] at h
    simp at h
  · intro v depth h
    cases v <;>
      · simp only [objectToSortedString]
        rw [if_pos h]

theorem c7_fingerprinter_canonical_witness :
    canon c7a = canon c7b ∧
    cacheKeyTransformFn (fun s => s) c7a = cacheKeyTransformFn (fun s => s) c7b ∧
    (11 : Nat) > 10 ∧
    objectToSortedString .fnull 11 = .error "Object depth exceeds 10 levels" := by
  refine ⟨rfl, (c7_fingerprinter_canonical (fun s => s)).1 c7a c7b rfl, ?_, ?_⟩
  · norm_num
  · exact (c7_fingerprinter_canonical (fun s => s)).2.2.2 .fnull 11 (by norm_num)

end PromiseCacherModel
